import Mathlib

/-!
# bps: a concurrent TCP connect scanner

A shallow embedding of `src/bps.cpp` (the POSIX branch of each `#ifdef`).

* C++ `int` values are mathematical integers (`Int`); the one arithmetic
  expression whose result is compared (`end_port - start_port + 1`) is wrapped
  to 32 bits, and it is proved that the wrap never takes effect.
* The two library calls of the host check (`inet_pton`, `getaddrinfo`) are the
  fields of a `Resolver`; every call made is recorded in a log. The outcome of
  the connect probe is a function of the port.
* Exceptions are `Except` values; an exception nobody catches ends the program
  in `std::terminate`.
* `scan` is a step relation over the calling thread and the worker threads. The
  worker lambda is cut where it takes or releases the mutex and where it calls
  out (`check_port`, `result_callback`); each piece is one atomic step. A call
  of the callback is one step as well, although the lambdas of `main` and
  `run_interactive` write to shared data without a lock.
* `std::sort` on `int`s is the ascending permutation, computed by
  `List.insertionSort`.
-/

namespace BPS

/-! ## Machine integers -/

/-- Two's complement wrap of a mathematical integer to a 32-bit `int`. -/
def wrapInt32 (x : Int) : Int := (x + 2147483648) % 4294967296 - 2147483648

/-- The value fits a 32-bit `int`. -/
def isInt32 (x : Int) : Prop := -2147483648 ≤ x ∧ x ≤ 2147483647

instance (x : Int) : Decidable (isInt32 x) := by unfold isInt32; infer_instance

/-! ## Validation (`PortScanner::validate_inputs`, lines 161-178) -/

/-- The exceptions thrown by `validate_inputs`, one constructor per `throw`. -/
inductive ValidationError where
  | startGreaterThanEnd
  | portsOutOfRange
  | rangeTooLarge
  | concurrencyOutOfRange
  | timeoutNotPositive
  | invalidHost (host : String)
  deriving DecidableEq, Repr

/-- The name resolution services used by the host check. `inet_pton h` is
`inet_pton(AF_INET, h, _) == 1`, `getaddrinfo h` is `getaddrinfo(h, ...) == 0`. -/
structure Resolver where
  inet_pton : String → Bool
  getaddrinfo : String → Bool

/-- A library call made by the host check. -/
inductive NetCall where
  | inet_pton (host : String)
  | getaddrinfo (host : String)
  deriving DecidableEq, Repr

/-- The fields of `class PortScanner` (lines 76-82), the mutex apart. -/
structure PortScanner where
  host : String
  start_port : Int
  end_port : Int
  timeout_ms : Int
  concurrency : Int
  verbose : Bool
  open_ports : List Int
  deriving DecidableEq, Repr

/-- Line 81: `const int max_concurrency = 500`. -/
def max_concurrency : Int := 500

/-- Line 82: `const int max_port_range = 10000`. -/
def max_port_range : Int := 10000

/-- The machine value of `end_port - start_port + 1` (line 164). -/
def range_size (start_port end_port : Int) : Int :=
  wrapInt32 (wrapInt32 (end_port - start_port) + 1)

/-- The text of `e.what()`. -/
def ValidationError.what : ValidationError → String
  | .startGreaterThanEnd => "Start port must be <= end port"
  | .portsOutOfRange => "Ports must be 1-65535"
  | .rangeTooLarge => "Port range too large (max " ++ toString max_port_range ++ ")"
  | .concurrencyOutOfRange => "Concurrency must be 1-" ++ toString max_concurrency
  | .timeoutNotPositive => "Timeout must be > 0"
  | .invalidHost host => "Invalid host or IP: " ++ host

/-- `validate_inputs`: the checks in source order. The first component is the
log of library calls made, the second the outcome. -/
def validate_inputs (r : Resolver) (e : PortScanner) :
    List NetCall × Except ValidationError Unit :=
  if e.start_port > e.end_port then ([], .error .startGreaterThanEnd)
  else if e.start_port < 1 ∨ e.end_port > 65535 then ([], .error .portsOutOfRange)
  else if range_size e.start_port e.end_port > max_port_range then ([], .error .rangeTooLarge)
  else if e.concurrency < 1 ∨ e.concurrency > max_concurrency then
    ([], .error .concurrencyOutOfRange)
  else if e.timeout_ms < 1 then ([], .error .timeoutNotPositive)
  else if r.inet_pton e.host then ([.inet_pton e.host], .ok ())
  else if r.getaddrinfo e.host then ([.inet_pton e.host, .getaddrinfo e.host], .ok ())
  else ([.inet_pton e.host, .getaddrinfo e.host], .error (.invalidHost e.host))

/-- The constructor `PortScanner::PortScanner` (lines 85-88): initialise the fields (the result vector
starts empty), then validate. -/
def PortScanner.construct (r : Resolver) (h : String) (sp ep t c : Int) (v : Bool) :
    List NetCall × Except ValidationError PortScanner :=
  let e : PortScanner :=
    { host := h, start_port := sp, end_port := ep, timeout_ms := t, concurrency := c,
      verbose := v, open_ports := [] }
  match validate_inputs r e with
  | (log, .ok ()) => (log, .ok e)
  | (log, .error err) => (log, .error err)

/-- The host check passes: the host is an IPv4 literal or the resolver accepts it. -/
def hostOk (r : Resolver) (h : String) : Bool := r.inet_pton h || r.getaddrinfo h

/-- A resolver that accepts IPv4 literals from a given list and resolves no name. -/
def literalResolver (lits : List String) : Resolver :=
  { inet_pton := fun h => decide (h ∈ lits), getaddrinfo := fun _ => false }

/-- The rules of the specification, section 4.1, numbered as there. -/
inductive Rule where
  | startLeEnd | portsInRange | rangeSize | concurrencyBounds | timeoutPositive | hostResolves
  deriving DecidableEq, Repr

/-- Rule `k` of section 4.1 holds, in the specification's words, over
mathematical integers. -/
def Rule.holds (r : Resolver) (h : String) (sp ep t c : Int) : Rule → Bool
  | .startLeEnd => decide (sp ≤ ep)
  | .portsInRange => decide (1 ≤ sp ∧ ep ≤ 65535)
  | .rangeSize => decide (ep - sp + 1 ≤ 10000)
  | .concurrencyBounds => decide (1 ≤ c ∧ c ≤ 500)
  | .timeoutPositive => decide (t ≥ 1)
  | .hostResolves => hostOk r h

/-- The rules in the order of section 4.1. -/
def Rule.all : List Rule :=
  [.startLeEnd, .portsInRange, .rangeSize, .concurrencyBounds, .timeoutPositive, .hostResolves]

/-- The first rule of section 4.1 that the parameters violate, if any. -/
def firstViolated (r : Resolver) (h : String) (sp ep t c : Int) : Option Rule :=
  Rule.all.find? (fun k => !(k.holds r h sp ep t c))

/-- The error section 4.1 attaches to each rule. -/
def Rule.error (h : String) : Rule → ValidationError
  | .startLeEnd => .startGreaterThanEnd
  | .portsInRange => .portsOutOfRange
  | .rangeSize => .rangeTooLarge
  | .concurrencyBounds => .concurrencyOutOfRange
  | .timeoutPositive => .timeoutNotPositive
  | .hostResolves => .invalidHost h

/-! ## The scan (`PortScanner::scan`, lines 90-128)

The worker lambda is cut at its four sequence points; each piece between two
of them is one atomic step of the thread that runs it. Any thread that has a
step may take the next one, so every interleaving of the threads is a sequence
of steps. -/

/-- Lines 91-92: the queue built by
`for (int p = start_port; p <= end_port; ++p) ports.push(p)`. -/
def portQueue (start_port end_port : Int) : List Int :=
  (List.range (end_port + 1 - start_port).toNat).map (fun (k : Nat) => start_port + (k : Int))

/-- Where a worker thread stands in the lambda of lines 103-119. -/
inductive Worker where
  /-- At the top of `while (true)`, about to take the lock of line 107. -/
  | idle
  /-- Past line 110 with `port` popped, about to call `check_port` (line 112). -/
  | claimed (port : Int)
  /-- Past line 112, about to run the `if (is_open)` of line 113. -/
  | probed (port : Int) (is_open : Bool)
  /-- Past line 116, about to run line 117. -/
  | notifying (port : Int) (is_open : Bool)
  /-- Left the loop through the `break` of line 108. -/
  | done
  deriving DecidableEq, Repr

/-- Where the calling thread stands in `scan`. -/
inductive MainPc where
  /-- In the loop of line 102; the loop counter is the number of threads created. -/
  | spawning
  /-- In the loop of line 122, about to join thread `j`. -/
  | joining (j : Nat)
  /-- Past the sort of line 123: `scan` has returned. -/
  | returned
  deriving DecidableEq, Repr

/-- The state of a running `scan`. `probes` logs the calls of `check_port`,
`calls` the invocations of `result_callback`, both in the order they happen. -/
structure ScanState where
  main : MainPc
  ports : List Int
  workers : List Worker
  open_ports : List Int
  probes : List Int
  calls : List (Int × Bool)
  deriving DecidableEq, Repr

/-- The state at entry of the thread-creating loop: the queue is filled, no
thread exists, `open_ports` is the member as the engine holds it. -/
def ScanState.init (e : PortScanner) : ScanState :=
  { main := .spawning, ports := portQueue e.start_port e.end_port, workers := [],
    open_ports := e.open_ports, probes := [], calls := [] }

/-- One step of the calling thread: create the next thread (line 103) or leave
the loop of line 102; join the next thread once it has ended (line 122); after
the last join, sort (line 123) and return. -/
def stepMain (e : PortScanner) (s : ScanState) : Option ScanState :=
  match s.main with
  | .spawning =>
    if (s.workers.length : Int) < e.concurrency then
      some { s with workers := s.workers ++ [Worker.idle] }
    else some { s with main := .joining 0 }
  | .joining j =>
    if j < s.workers.length then
      (if s.workers[j]? = some Worker.done then some { s with main := .joining (j + 1) } else none)
    else some { s with main := .returned, open_ports := s.open_ports.insertionSort (· ≤ ·) }
  | .returned => none

/-- One step of worker `k`. `check_port` is the outcome of the connect probe,
`hasCallback` tells whether `result_callback` is non-null. -/
def stepWorker (check_port : Int → Bool) (hasCallback : Bool) (k : Nat) (s : ScanState) :
    Option ScanState :=
  match s.workers[k]? with
  | none => none
  | some .idle =>
    match s.ports with
    | [] => some { s with workers := s.workers.set k .done }
    | port :: rest => some { s with ports := rest, workers := s.workers.set k (.claimed port) }
  | some (.claimed port) =>
    some { s with workers := s.workers.set k (.probed port (check_port port)),
                  probes := s.probes ++ [port] }
  | some (.probed port is_open) =>
    some { s with workers := s.workers.set k (.notifying port is_open),
                  open_ports := if is_open then s.open_ports ++ [port] else s.open_ports }
  | some (.notifying port is_open) =>
    some { s with workers := s.workers.set k .idle,
                  calls := if hasCallback then s.calls ++ [(port, is_open)] else s.calls }
  | some .done => none

/-- The parameters of one call of `scan`: the engine, the probe outcomes and
whether a callback was passed. -/
structure ScanCall where
  engine : PortScanner
  check_port : Int → Bool
  hasCallback : Bool

/-- One step of thread `t`: thread `0` is the caller, thread `k + 1` is worker `k`. -/
def step (c : ScanCall) (t : Nat) (s : ScanState) : Option ScanState :=
  match t with
  | 0 => stepMain c.engine s
  | k + 1 => stepWorker c.check_port c.hasCallback k s

/-- The step relation: some thread takes its next step. -/
def Step (c : ScanCall) (s s' : ScanState) : Prop := ∃ t, step c t s = some s'

/-- The states reachable from `s` under any interleaving. -/
def Reach (c : ScanCall) (s s' : ScanState) : Prop := Relation.ReflTransGen (Step c) s s'

/-- Run a schedule: at each entry the named thread takes its step; an entry
that names a thread with no step is skipped. -/
def runSchedule (c : ScanCall) (sched : List Nat) (s : ScanState) : ScanState :=
  sched.foldl (fun s t => (step c t s).getD s) s

/-- The first thread that has a step takes it. -/
def stepAny (c : ScanCall) (s : ScanState) : Option ScanState :=
  (List.range (s.workers.length + 1)).findSome? (fun t => step c t s)

/-- Run to the end with `stepAny`, for at most `fuel` steps. -/
def runToEnd (c : ScanCall) : Nat → ScanState → ScanState
  | 0, s => s
  | fuel + 1, s =>
    match stepAny c s with
    | none => s
    | some s' => runToEnd c fuel s'

/-- The weight of a worker: the number of steps it can take without claiming
a further port. -/
def Worker.weight : Worker → Nat
  | .done => 0
  | .idle => 1
  | .notifying _ _ => 2
  | .probed _ _ => 3
  | .claimed _ => 4

/-- The weight of the calling thread. -/
def mainWeight (e : PortScanner) (s : ScanState) : Nat :=
  match s.main with
  | .spawning => 3 * (e.concurrency.toNat - s.workers.length) + s.workers.length + 3
  | .joining j => (s.workers.length - j) + 1
  | .returned => 0

/-- A bound on the number of steps left, whatever the interleaving. -/
def stepsLeft (e : PortScanner) (s : ScanState) : Nat :=
  mainWeight e s + 5 * s.ports.length + (s.workers.map Worker.weight).sum

/-- The call `scan(result_callback)` under a schedule: the threads follow
`sched`, then whatever is left to run runs. The result is the final state. -/
def scanRun (c : ScanCall) (sched : List Nat) : ScanState :=
  let s := runSchedule c sched (ScanState.init c.engine)
  runToEnd c (stepsLeft c.engine s) s

/-- The engine after the call: `open_ports` is the only member `scan` writes. -/
def scan (c : ScanCall) (sched : List Nat) : PortScanner :=
  { c.engine with open_ports := (scanRun c sched).open_ports }

/-- Line 130: `get_open_ports`. -/
def PortScanner.get_open_ports (e : PortScanner) : List Int := e.open_ports

/-- The number of probes in flight: the workers inside `check_port`. -/
def inFlight (s : ScanState) : Nat :=
  (s.workers.filter (fun w => match w with | .claimed _ => true | _ => false)).length

/-- The ports a worker holds: claimed and the iteration not yet finished. -/
def Worker.held : Worker → List Int
  | .claimed p => [p]
  | .probed p _ => [p]
  | .notifying p _ => [p]
  | _ => []

/-! ## The command line (`parse_args`, `main`, `ScannerCLI::run_interactive`)

Text written to `std::cout` is a list of `Out` items, one per line printed
(colour codes left out). An uncaught exception ends the program through
`std::terminate`. Standard input is a list of newline-terminated lines. -/

/-- The class `\w` of the regular expression. -/
def isWordChar (c : Char) : Bool := c.isAlphanum || c = '_'

/-- What `std::isspace` accepts in the C locale (the complement of `\S`). -/
def isSpaceChar (c : Char) : Bool :=
  c = ' ' || c = '\t' || c = '\n' || c = '\r' || c.toNat = 11 || c.toNat = 12

/-- `std::regex_match(arg, match, opt_regex)` for the expression
`--?(\w+)(?:=(\S+))?` of line 275: on a match, `match[1].str()` and
`match[2].str()` (empty when the second group took no part). -/
def matchOpt (arg : String) : Option (String × String) :=
  match arg.toList with
  | '-' :: rest =>
    let rest := match rest with
      | '-' :: r => r
      | r => r
    let key := rest.takeWhile isWordChar
    if key.isEmpty then none
    else
      match rest.dropWhile isWordChar with
      | [] => some (String.mk key, "")
      | '=' :: v =>
        if !v.isEmpty && v.all (fun c => !isSpaceChar c) then some (String.mk key, String.mk v)
        else none
      | _ => none
  | _ => none

/-- The exceptions of `std::stoi`. -/
inductive StoiError where
  | invalid_argument
  | out_of_range
  deriving DecidableEq, Repr

/-- The decimal value of a string of digits. -/
def digitsValue (ds : List Char) : Nat := ds.foldl (fun a d => 10 * a + (d.toNat - 48)) 0

/-- `std::stoi(s)`: skip white space, read an optional sign and the longest run
of decimal digits; no digit is `invalid_argument`, a value outside `int` is
`out_of_range`. -/
def stoi (s : String) : Except StoiError Int :=
  let cs := s.toList.dropWhile isSpaceChar
  let signed : Bool × List Char := match cs with
    | '-' :: r => (true, r)
    | '+' :: r => (false, r)
    | r => (false, r)
  let ds := signed.2.takeWhile Char.isDigit
  if ds.isEmpty then .error .invalid_argument
  else
    let v : Int := if signed.1 then -(digitsValue ds : Int) else (digitsValue ds : Int)
    if isInt32 v then .ok v else .error .out_of_range

/-- `struct Args` (lines 266-271); the defaults are the member initialisers. -/
structure Args where
  host : String := ""
  start_port : Int := 1
  end_port : Int := 1024
  timeout : Int := 500
  concurrency : Int := 20
  verbose : Bool := false
  help : Bool := false
  deriving DecidableEq, Repr

/-- The body of the loop of `parse_args` (lines 277-289) for one argument. -/
def parse_arg (args : Args) (arg : String) : Except StoiError Args :=
  match matchOpt arg with
  | none => .ok args
  | some (key, value) =>
    if key = "h" ∨ key = "host" then .ok { args with host := value }
    else if key = "s" ∨ key = "start" then
      (stoi value).map (fun n => { args with start_port := n })
    else if key = "e" ∨ key = "end" then
      (stoi value).map (fun n => { args with end_port := n })
    else if key = "t" ∨ key = "timeout" then
      (stoi value).map (fun n => { args with timeout := n })
    else if key = "c" ∨ key = "concurrency" then
      (stoi value).map (fun n => { args with concurrency := n })
    else if key = "v" ∨ key = "verbose" then .ok { args with verbose := true }
    else if key = "help" then .ok { args with help := true }
    else .ok args

/-- Fold `parse_arg` over the arguments, stopping at the first exception. -/
def parse_loop (args : Args) : List String → Except StoiError Args
  | [] => .ok args
  | arg :: rest =>
    match parse_arg args arg with
    | .ok args' => parse_loop args' rest
    | .error err => .error err

/-- `parse_args(argc, argv)` (lines 273-292): `argv[0]` is skipped. -/
def parse_args (argv : List String) : Except StoiError Args := parse_loop {} (argv.drop 1)

/-- A line written to standard output. -/
inductive Out where
  | usage
  | banner
  | prompt (text : String)
  | scanning (host : String) (start_port end_port : Int)
  | portLine (port : Int) (is_open : Bool)
  | scanComplete
  | noOpenPorts
  | openPortsHeader
  | openPort (port : Int)
  | error (what : String)
  deriving DecidableEq, Repr

/-- How the process ends. -/
inductive Exit where
  | code (n : Int)
  | terminate
  deriving DecidableEq, Repr

/-- What a run of the program did: its output, how it ended, the library calls
of the host check, and the ports probed. `constructed` tells whether a
`PortScanner` came into being. -/
structure Run where
  out : List Out
  exit : Exit
  netcalls : List NetCall
  probes : List Int
  constructed : Bool
  deriving DecidableEq, Repr

/-- The environment of a run: name resolution and the connect outcome per host
and port. -/
structure World where
  resolver : Resolver
  connect : String → Int → Bool

/-- The lambda passed to `scan` (lines 224-229 and 323-328), acting on the
output and on the caller's local vector `open_ports`. -/
def main_callback (verbose : Bool) (acc : List Out × List Int) (r : Int × Bool) :
    List Out × List Int :=
  ((if verbose then acc.1 ++ [Out.portLine r.1 r.2] else acc.1),
   (if r.2 then acc.2 ++ [r.1] else acc.2))

/-- The lines 231-239 and 330-338: the report printed after `scan` returns,
from the caller's local vector. -/
def report (open_ports : List Int) : List Out :=
  [Out.scanComplete] ++
    (if open_ports.isEmpty then [Out.noOpenPorts]
     else [Out.openPortsHeader] ++ open_ports.map Out.openPort)

/-- The `try` blocks of lines 219-246 and 318-345, which differ only in how
the process is left: construct the scanner, scan with the lambda, report; a
`ValidationError` prints its text and ends the process with code 1. `pre` is
the output so far. -/
def scan_and_report (w : World) (pre : List Out) (host : String) (sp ep t c : Int) (verbose : Bool)
    (sched : List Nat) : Run :=
  let pre := pre ++ [Out.scanning host sp ep]
  match PortScanner.construct w.resolver host sp ep t c verbose with
  | (log, .error err) =>
    { out := pre ++ [Out.error err.what], exit := .code 1, netcalls := log, probes := [],
      constructed := false }
  | (log, .ok scanner) =>
    let s := scanRun ⟨scanner, w.connect host, true⟩ sched
    let acc := s.calls.foldl (main_callback verbose) (pre, [])
    { out := acc.1 ++ report acc.2, exit := .code 0, netcalls := log, probes := s.probes,
      constructed := true }

/-- `std::getline(std::cin, input)`: the next line, or the empty string at end of input. -/
def getline (stdin : List String) : String × List String :=
  match stdin with
  | [] => ("", [])
  | l :: rest => (l, rest)

/-- `ScannerCLI::trim` (lines 258-263). -/
def trim (str : String) : String :=
  String.mk ((str.toList.dropWhile isSpaceChar).reverse.dropWhile isSpaceChar).reverse

/-- Lines 198-213: `if (!input.empty()) x = std::stoi(input)`. -/
def readInt (dflt : Int) (input : String) : Except StoiError Int :=
  if input.isEmpty then .ok dflt else stoi input

/-- A run that ended in `std::terminate` after printing `out`. -/
def terminated (out : List Out) : Run :=
  { out := out, exit := .terminate, netcalls := [], probes := [], constructed := false }

/-- `ScannerCLI::run_interactive` (lines 183-247). The calls of `std::stoi`
stand before the `try`, so their exceptions are not caught. -/
def run_interactive (w : World) (stdin : List String) (sched : List Nat) : Run :=
  let out := [Out.banner, Out.prompt "Enter host/IP: "]
  let (host, stdin) := getline stdin
  let host := trim host
  let host := if host.isEmpty then "127.0.0.1" else host
  let out := out ++ [Out.prompt "Enter start port (default 1): "]
  let (input, stdin) := getline stdin
  match readInt 1 input with
  | .error _ => terminated out
  | .ok start_port =>
  let out := out ++ [Out.prompt "Enter end port (default 1024): "]
  let (input, stdin) := getline stdin
  match readInt 1024 input with
  | .error _ => terminated out
  | .ok end_port =>
  let out := out ++ [Out.prompt "Enter timeout (ms, default 500): "]
  let (input, stdin) := getline stdin
  match readInt 500 input with
  | .error _ => terminated out
  | .ok timeout =>
  let out := out ++ [Out.prompt "Enter concurrency (default 20): "]
  let (input, stdin) := getline stdin
  match readInt 20 input with
  | .error _ => terminated out
  | .ok concurrency =>
  let out := out ++ [Out.prompt "Verbose mode? (y/n, default n): "]
  let (input, _) := getline stdin
  let verbose := !input.isEmpty && (input.toList.head? = some 'y' || input.toList.head? = some 'Y')
  scan_and_report w out host start_port end_port timeout concurrency verbose sched

/-- The function `main` (lines 294-349). -/
def main (w : World) (argv : List String) (stdin : List String) (sched : List Nat) : Run :=
  match parse_args argv with
  | .error _ => terminated []
  | .ok args =>
    if args.help then
      { out := [Out.usage], exit := .code 0, netcalls := [], probes := [], constructed := false }
    else if args.host.isEmpty ∨ argv.length = 1 then run_interactive w stdin sched
    else
      scan_and_report w [Out.banner] args.host args.start_port args.end_port args.timeout
        args.concurrency args.verbose sched

/-- The engine a successful construction yields. -/
def freshEngine (h : String) (sp ep t c : Int) (v : Bool) : PortScanner :=
  { host := h, start_port := sp, end_port := ep, timeout_ms := t, concurrency := c,
    verbose := v, open_ports := [] }

/-- The numeric fields satisfy rules 1-5 of section 4.1. -/
def validFields (sp ep t c : Int) : Prop :=
  1 ≤ sp ∧ sp ≤ ep ∧ ep ≤ 65535 ∧ ep - sp + 1 ≤ 10000 ∧ 1 ≤ c ∧ c ≤ 500 ∧ t ≥ 1

instance (sp ep t c : Int) : Decidable (validFields sp ep t c) := by
  unfold validFields; infer_instance

/-- Construction succeeds. -/
def Accepted (r : Resolver) (h : String) (sp ep t c : Int) (v : Bool) : Prop :=
  (PortScanner.construct r h sp ep t c v).2 = .ok (freshEngine h sp ep t c v)

/-- Construction throws a `ValidationError`. -/
def Rejected (r : Resolver) (h : String) (sp ep t c : Int) (v : Bool) : Prop :=
  ∃ err, (PortScanner.construct r h sp ep t c v).2 = .error err

/-! ## Bookkeeping for the scan invariant -/

/-- The number of occurrences of `x` in `l`, by decidable equality. -/
def occurrences {α : Type} [DecidableEq α] (x : α) (l : List α) : Nat := l.count x

/-- Gather what `f` finds at each worker. -/
def collect {α : Type} (f : Worker → List α) : List Worker → List α
  | [] => []
  | w :: ws => f w ++ collect f ws

/-- The port a worker has claimed and not yet probed. -/
def Worker.toProbe : Worker → List Int
  | .claimed p => [p]
  | _ => []

/-- The port a worker found open and has not yet pushed to `open_ports`. -/
def Worker.toRecord : Worker → List Int
  | .probed p true => [p]
  | _ => []

/-- The probe result a worker has not yet passed to the callback. -/
def Worker.toNotify : Worker → List (Int × Bool)
  | .probed p b => [(p, b)]
  | .notifying p b => [(p, b)]
  | _ => []

/-- The invariant of a running scan. Each port of the range is in exactly one
place: in the queue, claimed by one worker, or probed (`claim`). The ports in
`open_ports` are the ones the engine held at entry and the probed ports found
open, up to the one push that may be pending per worker (`record`). The
callback log holds the probe results, up to the one call that may be pending per
worker (`notify`). A worker ends only on an empty queue (`drained`). -/
structure Inv (c : ScanCall) (s : ScanState) : Prop where
  claim : ∀ x, s.probes.count x + (collect Worker.toProbe s.workers).count x + s.ports.count x =
    (portQueue c.engine.start_port c.engine.end_port).count x
  record : ∀ x, s.open_ports.count x + (collect Worker.toRecord s.workers).count x =
    c.engine.open_ports.count x + (s.probes.filter c.check_port).count x
  notify : ∀ r, occurrences r s.calls +
      (if c.hasCallback then occurrences r (collect Worker.toNotify s.workers) else 0) =
    if c.hasCallback then occurrences r (s.probes.map (fun p => (p, c.check_port p))) else 0
  drained : Worker.done ∈ s.workers → s.ports = []
  launched : s.workers.length ≤ c.engine.concurrency.toNat ∧
    (s.main ≠ .spawning → s.workers.length = c.engine.concurrency.toNat)
  joined : ∀ j, s.main = .joining j → ∀ i, i < j → s.workers[i]? = some Worker.done
  finished : s.main = .returned →
    (∀ w ∈ s.workers, w = Worker.done) ∧ s.open_ports.Sorted (· ≤ ·)

/-! ## Concrete runs used as instances -/

/-- The scenario of section 8: host `127.0.0.1`, ports 8000..8002, timeout 200,
concurrency 4, a listener on 8001 only, a callback supplied. -/
def scenarioCall : ScanCall :=
  { engine := freshEngine "127.0.0.1" 8000 8002 200 4 false,
    check_port := fun p => decide (p = 8001),
    hasCallback := true }

/-- A second call of `scan` on the engine a first call left, with the same probe
outcomes and callback. -/
def rescan (c : ScanCall) (sched sched' : List Nat) : PortScanner :=
  scan { c with engine := scan c sched } sched'

/-- One port, open, one worker. -/
def singlePortCall : ScanCall :=
  { engine := freshEngine "127.0.0.1" 8000 8000 200 1 false,
    check_port := fun _ => true,
    hasCallback := true }

/-- Two ports, both open, two workers. -/
def twoOpenCall : ScanCall :=
  { engine := freshEngine "127.0.0.1" 80 81 500 2 false,
    check_port := fun _ => true,
    hasCallback := true }

/-- A world in which `127.0.0.1` is an IPv4 literal and every port accepts. -/
def openWorld : World :=
  { resolver := literalResolver ["127.0.0.1"], connect := fun _ _ => true }

/-- The run that prints the usage summary and exits with code 0. -/
def usageRun : Run :=
  { out := [Out.usage], exit := .code 0, netcalls := [], probes := [], constructed := false }

/-- The keys whose value goes through `std::stoi` (lines 283-286). -/
def numericKeys : List String := ["s", "start", "e", "end", "t", "timeout", "c", "concurrency"]

/-- `std::stoi` returns a value. -/
def stoiOk (s : String) : Bool :=
  match stoi s with
  | .ok _ => true
  | .error _ => false

/-- The argument is no numeric flag, or its value is one `std::stoi` converts. -/
def numericFlagOk (arg : String) : Bool :=
  match matchOpt arg with
  | none => true
  | some (key, value) => !(numericKeys.contains key) || stoiOk value

/-- The argument is a flag with one of the given keys. -/
def flagIn (keys : List String) (arg : String) : Bool :=
  match matchOpt arg with
  | none => false
  | some (key, _) => keys.contains key

/-- Some argument after `argv[0]` is a flag with one of the given keys. -/
def hasFlag (keys : List String) (argv : List String) : Bool :=
  (argv.drop 1).any (flagIn keys)

/-! # Theorems -/

/-! ## Validation -/

theorem range_size_exact (sp ep : Int) (h1 : ¬ sp > ep) (h2 : ¬ (sp < 1 ∨ ep > 65535)) :
    isInt32 (ep - sp) ∧ isInt32 (ep - sp + 1) ∧ range_size sp ep = ep - sp + 1 := by
  unfold isInt32 range_size wrapInt32
  omega

theorem construct_eq (r : Resolver) (h : String) (sp ep t c : Int) (v : Bool) :
    PortScanner.construct r h sp ep t c v =
      match validate_inputs r (freshEngine h sp ep t c v) with
      | (log, .ok ()) => (log, .ok (freshEngine h sp ep t c v))
      | (log, .error err) => (log, .error err) := rfl

theorem construct_firstViolated (r : Resolver) (h : String) (sp ep t c : Int) (v : Bool) :
    (PortScanner.construct r h sp ep t c v).2 =
      match firstViolated r h sp ep t c with
      | none => .ok (freshEngine h sp ep t c v)
      | some k => .error (k.error h) := by
  rw [construct_eq]
  simp only [validate_inputs, freshEngine, firstViolated, Rule.all, List.find?, Rule.holds,
    hostOk, max_port_range, max_concurrency]
  by_cases h1 : sp > ep
  · have : ¬ sp ≤ ep := by omega
    simp [h1, this, Rule.error]
  · have h1' : sp ≤ ep := by omega
    by_cases h2 : sp < 1 ∨ ep > 65535
    · have : ¬ (1 ≤ sp ∧ ep ≤ 65535) := by omega
      simp [h1, h1', h2, this, Rule.error]
    · have h2' : 1 ≤ sp ∧ ep ≤ 65535 := by omega
      have hr := (range_size_exact sp ep h1 h2).2.2
      by_cases h3 : ep - sp + 1 > 10000
      · have : ¬ (ep - sp + 1 ≤ 10000) := by omega
        simp [h1, h1', h2, h2', hr, h3, this, Rule.error]
      · have h3' : ep - sp + 1 ≤ 10000 := by omega
        by_cases h4 : c < 1 ∨ c > 500
        · have : ¬ (1 ≤ c ∧ c ≤ 500) := by omega
          simp [h1, h1', h2, h2', hr, h3, h3', h4, this, Rule.error]
        · have h4' : 1 ≤ c ∧ c ≤ 500 := by omega
          by_cases h5 : t < 1
          · have : ¬ (t ≥ 1) := by omega
            simp [h1, h1', h2, h2', hr, h3, h3', h4, h4', h5, this, Rule.error]
          · have h5' : t ≥ 1 := by omega
            cases hp : r.inet_pton h <;> cases hg : r.getaddrinfo h <;>
              simp [h1, h1', h2, h2', hr, h3, h3', h4, h4', h5, h5', hp, hg, Rule.error]

theorem firstViolated_none_iff (r : Resolver) (h : String) (sp ep t c : Int) :
    firstViolated r h sp ep t c = none ↔ validFields sp ep t c ∧ hostOk r h = true := by
  simp only [firstViolated, Rule.all, List.find?_eq_none, List.mem_cons, List.mem_singleton,
    validFields]
  constructor
  · intro hall
    have a1 := hall .startLeEnd (by simp)
    have a2 := hall .portsInRange (by simp)
    have a3 := hall .rangeSize (by simp)
    have a4 := hall .concurrencyBounds (by simp)
    have a5 := hall .timeoutPositive (by simp)
    have a6 := hall .hostResolves (by simp)
    simp [Rule.holds] at a1 a2 a3 a4 a5 a6
    refine ⟨?_, a6⟩
    omega
  · rintro ⟨hv, hh⟩ k hk
    rcases hk with rfl | rfl | rfl | rfl | rfl | rfl | hk
    all_goals first
      | cases hk
      | (simp [Rule.holds, hh] <;> omega)

theorem construct_valid (r : Resolver) (h : String) (sp ep t c : Int) (v : Bool)
    (hv : validFields sp ep t c) (hh : hostOk r h = true) :
    (PortScanner.construct r h sp ep t c v).2 = .ok (freshEngine h sp ep t c v) := by
  rw [construct_firstViolated, (firstViolated_none_iff r h sp ep t c).2 ⟨hv, hh⟩]

theorem construct_invalid (r : Resolver) (h : String) (sp ep t c : Int) (v : Bool)
    (hv : ¬ (validFields sp ep t c ∧ hostOk r h = true)) :
    ∃ k, firstViolated r h sp ep t c = some k ∧
      (PortScanner.construct r h sp ep t c v).2 = .error (k.error h) := by
  rw [construct_firstViolated]
  cases hf : firstViolated r h sp ep t c with
  | none => exact absurd ((firstViolated_none_iff r h sp ep t c).1 hf) hv
  | some k => exact ⟨k, rfl, rfl⟩

theorem construct_ok_inv (r : Resolver) (h : String) (sp ep t c : Int) (v : Bool)
    (e : PortScanner) (he : (PortScanner.construct r h sp ep t c v).2 = .ok e) :
    e = freshEngine h sp ep t c v ∧ validFields sp ep t c ∧ hostOk r h = true := by
  by_cases hv : validFields sp ep t c ∧ hostOk r h = true
  · rw [construct_valid r h sp ep t c v hv.1 hv.2] at he
    exact ⟨(Except.ok.inj he).symm, hv⟩
  · obtain ⟨k, -, hk⟩ := construct_invalid r h sp ep t c v hv
    rw [hk] at he
    cases he

theorem construct_log (r : Resolver) (h : String) (sp ep t c : Int) (v : Bool) :
    (PortScanner.construct r h sp ep t c v).1 =
      if validFields sp ep t c then
        (if r.inet_pton h = true then [NetCall.inet_pton h]
         else [NetCall.inet_pton h, NetCall.getaddrinfo h])
      else [] := by
  rw [construct_eq]
  simp only [validate_inputs, freshEngine, max_port_range, max_concurrency, validFields]
  by_cases h1 : sp > ep
  · rw [if_pos h1, if_neg (by omega)]
  · by_cases h2 : sp < 1 ∨ ep > 65535
    · rw [if_neg h1, if_pos h2, if_neg (by omega)]
    · have hr := (range_size_exact sp ep h1 h2).2.2
      rw [if_neg h1, if_neg h2, hr]
      by_cases h3 : ep - sp + 1 > 10000
      · rw [if_pos h3, if_neg (by omega)]
      · by_cases h4 : c < 1 ∨ c > 500
        · rw [if_neg h3, if_pos h4, if_neg (by omega)]
        · by_cases h5 : t < 1
          · rw [if_neg h3, if_neg h4, if_pos h5, if_neg (by omega)]
          · have hv : 1 ≤ sp ∧ sp ≤ ep ∧ ep ≤ 65535 ∧ ep - sp + 1 ≤ 10000 ∧ 1 ≤ c ∧ c ≤ 500 ∧
                t ≥ 1 := by omega
            rw [if_neg h3, if_neg h4, if_neg h5, if_pos hv]
            cases hp : r.inet_pton h <;> cases hg : r.getaddrinfo h <;> simp

/-- Claim C1. For every host that passes the host check and all 32-bit integers
`sp`, `ep`, `t`, `c`: the constructor returns an engine if and only if
`1 ≤ sp ≤ ep ≤ 65535`, `ep - sp + 1 ≤ 10000`, `1 ≤ c ≤ 500` and `t ≥ 1`, and
otherwise throws a `ValidationError`; and whenever the comparison of line 164 is
evaluated (rules 1 and 2 passed) neither `ep - sp` nor `ep - sp + 1` leaves the
range of `int`, so the machine value is the exact one. -/
theorem C1_construct_succeeds_iff_valid (r : Resolver) (h : String) (sp ep t c : Int) (v : Bool)
    (hh : hostOk r h = true)
    (hsp : isInt32 sp) (hep : isInt32 ep) (ht : isInt32 t) (hc : isInt32 c) :
    ((∃ e, (PortScanner.construct r h sp ep t c v).2 = .ok e) ↔
        (1 ≤ sp ∧ sp ≤ ep ∧ ep ≤ 65535 ∧ ep - sp + 1 ≤ 10000 ∧ 1 ≤ c ∧ c ≤ 500 ∧ t ≥ 1)) ∧
    ((∃ err, (PortScanner.construct r h sp ep t c v).2 = .error err) ↔
        ¬ (1 ≤ sp ∧ sp ≤ ep ∧ ep ≤ 65535 ∧ ep - sp + 1 ≤ 10000 ∧ 1 ≤ c ∧ c ≤ 500 ∧ t ≥ 1)) ∧
    (¬ sp > ep → ¬ (sp < 1 ∨ ep > 65535) →
        isInt32 (ep - sp) ∧ isInt32 (ep - sp + 1) ∧ range_size sp ep = ep - sp + 1) := by
  have key : ∀ hv : Decidable (validFields sp ep t c),
      ((∃ e, (PortScanner.construct r h sp ep t c v).2 = .ok e) ↔ validFields sp ep t c) ∧
      ((∃ err, (PortScanner.construct r h sp ep t c v).2 = .error err) ↔
        ¬ validFields sp ep t c) := by
    intro _
    by_cases hv : validFields sp ep t c
    · rw [construct_valid r h sp ep t c v hv hh]
      simp [hv]
    · obtain ⟨k, -, hk⟩ := construct_invalid r h sp ep t c v (fun hx => hv hx.1)
      rw [hk]
      simp [hv]
  exact ⟨(key inferInstance).1, (key inferInstance).2, range_size_exact sp ep⟩

/-- Witness of C1 at host `127.0.0.1`, ports 8000..8002, timeout 200, concurrency 4. -/
theorem C1_witness :
    ((∃ e, (PortScanner.construct (literalResolver ["127.0.0.1"]) "127.0.0.1"
        8000 8002 200 4 false).2 = .ok e) ↔
        ((1 : Int) ≤ 8000 ∧ (8000 : Int) ≤ 8002 ∧ (8002 : Int) ≤ 65535 ∧
          (8002 : Int) - 8000 + 1 ≤ 10000 ∧ (1 : Int) ≤ 4 ∧ (4 : Int) ≤ 500 ∧ (200 : Int) ≥ 1)) ∧
    ((∃ err, (PortScanner.construct (literalResolver ["127.0.0.1"]) "127.0.0.1"
        8000 8002 200 4 false).2 = .error err) ↔
        ¬ ((1 : Int) ≤ 8000 ∧ (8000 : Int) ≤ 8002 ∧ (8002 : Int) ≤ 65535 ∧
          (8002 : Int) - 8000 + 1 ≤ 10000 ∧ (1 : Int) ≤ 4 ∧ (4 : Int) ≤ 500 ∧ (200 : Int) ≥ 1)) ∧
    (¬ (8000 : Int) > 8002 → ¬ ((8000 : Int) < 1 ∨ (8002 : Int) > 65535) →
        isInt32 (8002 - 8000) ∧ isInt32 (8002 - 8000 + 1) ∧
          range_size 8000 8002 = 8002 - 8000 + 1) :=
  C1_construct_succeeds_iff_valid (literalResolver ["127.0.0.1"]) "127.0.0.1" 8000 8002 200 4
    false (by decide) (by decide) (by decide) (by decide) (by decide)

theorem rejected_of_invalid (r : Resolver) (h : String) (sp ep t c : Int) (v : Bool)
    (hv : ¬ validFields sp ep t c) : Rejected r h sp ep t c v := by
  obtain ⟨k, -, hk⟩ := construct_invalid r h sp ep t c v (fun hx => hv hx.1)
  exact ⟨_, hk⟩

/-- Claim C2, refuted as stated: with the resolvable host `127.0.0.1`, timeout 500
and concurrency 20, the spec `startPort=1, endPort=65535` is not accepted; the
constructor throws "Port range too large (max 10000)" without reaching the
host check. -/
theorem C2_full_range_rejected :
    hostOk (literalResolver ["127.0.0.1"]) "127.0.0.1" = true ∧
    PortScanner.construct (literalResolver ["127.0.0.1"]) "127.0.0.1" 1 65535 500 20 false =
      ([], .error .rangeTooLarge) ∧
    ValidationError.rangeTooLarge.what = "Port range too large (max 10000)" := by
  refine ⟨by decide, ?_, by decide⟩
  rw [construct_eq]
  simp [validate_inputs, freshEngine, range_size, wrapInt32, max_port_range]

/-- Claim C2, amended. With a resolvable host and the other fields valid:
`startPort=1` is accepted with any `endPort` in 1..10000 and `endPort=65535` is
accepted with any `startPort` in 55536..65535, while the spec with both
`startPort=1` and `endPort=65535` is rejected (range too large); `startPort=0`
is rejected; `endPort=65536` is rejected; a range of exactly 10000 ports is
accepted and one of 10001 ports is rejected; `concurrency=500` is accepted, 501
and 0 are rejected; `timeoutMs=0` is rejected and `timeoutMs=1` is accepted. -/
theorem C2_validation_boundaries (r : Resolver) (h : String) (v : Bool)
    (hh : hostOk r h = true) :
    (∀ ep t c, 1 ≤ ep → ep ≤ 10000 → 1 ≤ c → c ≤ 500 → 1 ≤ t → Accepted r h 1 ep t c v) ∧
    (∀ sp t c, 55536 ≤ sp → sp ≤ 65535 → 1 ≤ c → c ≤ 500 → 1 ≤ t →
      Accepted r h sp 65535 t c v) ∧
    (∀ t c, (PortScanner.construct r h 1 65535 t c v).2 = .error .rangeTooLarge) ∧
    (∀ ep t c, Rejected r h 0 ep t c v) ∧
    (∀ sp t c, Rejected r h sp 65536 t c v) ∧
    (∀ sp t c, 1 ≤ sp → sp + 9999 ≤ 65535 → 1 ≤ c → c ≤ 500 → 1 ≤ t →
      Accepted r h sp (sp + 9999) t c v) ∧
    (∀ sp t c, Rejected r h sp (sp + 10000) t c v) ∧
    (∀ sp ep t, validFields sp ep t 500 → Accepted r h sp ep t 500 v) ∧
    (∀ sp ep t, Rejected r h sp ep t 501 v) ∧
    (∀ sp ep t, Rejected r h sp ep t 0 v) ∧
    (∀ sp ep c, Rejected r h sp ep 0 c v) ∧
    (∀ sp ep c, validFields sp ep 1 c → Accepted r h sp ep 1 c v) := by
  refine ⟨?_, ?_, ?_, ?_, ?_, ?_, ?_, ?_, ?_, ?_, ?_, ?_⟩
  · intro ep t c h1 h2 h3 h4 h5
    exact construct_valid r h 1 ep t c v (by unfold validFields; omega) hh
  · intro sp t c h1 h2 h3 h4 h5
    exact construct_valid r h sp 65535 t c v (by unfold validFields; omega) hh
  · intro t c
    rw [construct_eq]
    simp [validate_inputs, freshEngine, range_size, wrapInt32, max_port_range]
  · intro ep t c
    exact rejected_of_invalid r h 0 ep t c v (by unfold validFields; omega)
  · intro sp t c
    exact rejected_of_invalid r h sp 65536 t c v (by unfold validFields; omega)
  · intro sp t c h1 h2 h3 h4 h5
    exact construct_valid r h sp (sp + 9999) t c v (by unfold validFields; omega) hh
  · intro sp t c
    exact rejected_of_invalid r h sp (sp + 10000) t c v (by unfold validFields; omega)
  · intro sp ep t hv
    exact construct_valid r h sp ep t 500 v hv hh
  · intro sp ep t
    exact rejected_of_invalid r h sp ep t 501 v (by unfold validFields; omega)
  · intro sp ep t
    exact rejected_of_invalid r h sp ep t 0 v (by unfold validFields; omega)
  · intro sp ep c
    exact rejected_of_invalid r h sp ep 0 c v (by unfold validFields; omega)
  · intro sp ep c hv
    exact construct_valid r h sp ep 1 c v hv hh

/-- Witness of C2 (amended) at host `127.0.0.1`: the hypothesis holds there, and
the accepted boundary `startPort=1, endPort=10000, timeoutMs=1, concurrency=500`
is an instance. -/
theorem C2_witness :
    hostOk (literalResolver ["127.0.0.1"]) "127.0.0.1" = true ∧
    Accepted (literalResolver ["127.0.0.1"]) "127.0.0.1" 1 10000 1 500 false :=
  ⟨by decide,
   (C2_validation_boundaries (literalResolver ["127.0.0.1"]) "127.0.0.1" false (by decide)).1
     10000 1 500 (by decide) (by decide) (by decide) (by decide) (by decide)⟩

/-- Claim C3. The constructor reports the first violated rule in the order
(1) start ≤ end, (2) ports within 1..65535, (3) range size ≤ 10000,
(4) concurrency within 1..500, (5) timeout ≥ 1, (6) host resolves, and succeeds
when none is violated; `startPort=2000, endPort=1000` fails with the
start-greater-than-end error whatever the other fields; the host check makes a
library call exactly when rules 1-5 all pass; and when construction throws, the
program has probed no port and no scanner exists. -/
theorem C3_first_violated_rule_reported (w : World) (h : String) (sp ep t c : Int) (v : Bool)
    (pre : List Out) (sched : List Nat) :
    ((PortScanner.construct w.resolver h sp ep t c v).2 =
      match firstViolated w.resolver h sp ep t c with
      | none => .ok (freshEngine h sp ep t c v)
      | some k => .error (k.error h)) ∧
    (PortScanner.construct w.resolver h 2000 1000 t c v = ([], .error .startGreaterThanEnd) ∧
      ValidationError.startGreaterThanEnd.what = "Start port must be <= end port") ∧
    ((PortScanner.construct w.resolver h sp ep t c v).1 ≠ [] ↔
      (sp ≤ ep ∧ (1 ≤ sp ∧ ep ≤ 65535) ∧ ep - sp + 1 ≤ 10000 ∧ (1 ≤ c ∧ c ≤ 500) ∧ t ≥ 1)) ∧
    (firstViolated w.resolver h sp ep t c ≠ none →
      (scan_and_report w pre h sp ep t c v sched).probes = [] ∧
      (scan_and_report w pre h sp ep t c v sched).constructed = false ∧
      (scan_and_report w pre h sp ep t c v sched).exit = .code 1) := by
  refine ⟨construct_firstViolated _ _ _ _ _ _ _, ⟨?_, by decide⟩, ?_, ?_⟩
  · rw [construct_eq]
    simp [validate_inputs, freshEngine]
  · rw [construct_log]
    by_cases hv : validFields sp ep t c
    · rw [if_pos hv]
      have hv' := hv
      unfold validFields at hv'
      constructor
      · intro _; omega
      · intro _; split <;> simp
    · rw [if_neg hv]
      unfold validFields at hv
      constructor
      · intro hx; exact absurd rfl hx
      · intro hx; omega
  · intro hne
    have hinv : ¬ (validFields sp ep t c ∧ hostOk w.resolver h = true) :=
      fun hx => hne ((firstViolated_none_iff _ _ _ _ _ _).2 hx)
    obtain ⟨k, -, hk⟩ := construct_invalid w.resolver h sp ep t c v hinv
    unfold scan_and_report
    generalize PortScanner.construct w.resolver h sp ep t c v = res at hk
    obtain ⟨log, out⟩ := res
    simp only at hk
    subst hk
    simp

/-- Witness of C3 at `startPort=2000, endPort=1000`: rule 1 is violated, and the
program ends with code 1 without a probe. -/
theorem C3_witness :
    firstViolated openWorld.resolver "127.0.0.1" 2000 1000 500 20 ≠ none ∧
    (scan_and_report openWorld [Out.banner] "127.0.0.1" 2000 1000 500 20 false []).probes = [] ∧
    (scan_and_report openWorld [Out.banner] "127.0.0.1" 2000 1000 500 20 false []).constructed =
      false ∧
    (scan_and_report openWorld [Out.banner] "127.0.0.1" 2000 1000 500 20 false []).exit =
      .code 1 :=
  ⟨by decide,
   (C3_first_violated_rule_reported openWorld "127.0.0.1" 2000 1000 500 20 false [Out.banner]
     []).2.2.2 (by decide)⟩

/-! ## The scan: steps -/

theorem count_collect_set {α : Type} [BEq α] (f : Worker → List α) (x : α) :
    ∀ (ws : List Worker) (k : Nat) (w w' : Worker), ws[k]? = some w →
      (collect f (ws.set k w')).count x + (f w).count x =
        (collect f ws).count x + (f w').count x := by
  intro ws
  induction ws with
  | nil => intro k w w' hk; simp at hk
  | cons a ws ih =>
    intro k w w' hk
    cases k with
    | zero =>
      simp only [List.getElem?_cons_zero, Option.some.injEq] at hk
      subst hk
      simp only [List.set_cons_zero, collect, List.count_append]
      omega
    | succ k =>
      simp only [List.getElem?_cons_succ] at hk
      have := ih k w w' hk
      simp only [List.set_cons_succ, collect, List.count_append]
      omega

theorem occurrences_nil {α : Type} [DecidableEq α] (x : α) : occurrences x ([] : List α) = 0 :=
  rfl

theorem occurrences_append {α : Type} [DecidableEq α] (x : α) (l l' : List α) :
    occurrences x (l ++ l') = occurrences x l + occurrences x l' :=
  List.count_append x l l'

theorem occurrences_pos {α : Type} [DecidableEq α] (x : α) (l : List α) (h : x ∈ l) :
    0 < occurrences x l :=
  List.count_pos_iff.2 h

theorem perm_of_occurrences {α : Type} [DecidableEq α] (l l' : List α)
    (h : ∀ x, occurrences x l = occurrences x l') : l.Perm l' :=
  List.perm_iff_count.2 h

theorem occurrences_perm {α : Type} [DecidableEq α] (l l' : List α) (h : l.Perm l') (x : α) :
    occurrences x l = occurrences x l' :=
  h.count_eq x

theorem occurrences_collect_set {α : Type} [DecidableEq α] (f : Worker → List α) (x : α)
    (ws : List Worker) (k : Nat) (w w' : Worker) (hk : ws[k]? = some w) :
    occurrences x (collect f (ws.set k w')) + occurrences x (f w) =
      occurrences x (collect f ws) + occurrences x (f w') :=
  count_collect_set f x ws k w w' hk

theorem sum_weight_set : ∀ (ws : List Worker) (k : Nat) (w w' : Worker), ws[k]? = some w →
    ((ws.set k w').map Worker.weight).sum + w.weight =
      (ws.map Worker.weight).sum + w'.weight := by
  intro ws
  induction ws with
  | nil => intro k w w' hk; simp at hk
  | cons a ws ih =>
    intro k w w' hk
    cases k with
    | zero =>
      simp only [List.getElem?_cons_zero, Option.some.injEq] at hk
      subst hk
      simp only [List.set_cons_zero, List.map_cons, List.sum_cons]
      omega
    | succ k =>
      simp only [List.getElem?_cons_succ] at hk
      have := ih k w w' hk
      simp only [List.set_cons_succ, List.map_cons, List.sum_cons]
      omega

theorem collect_append {α : Type} (f : Worker → List α) (ws ws' : List Worker) :
    collect f (ws ++ ws') = collect f ws ++ collect f ws' := by
  induction ws with
  | nil => rfl
  | cons a ws ih => simp [collect, ih]

theorem collect_all_done {α : Type} (f : Worker → List α) (hf : f Worker.done = [])
    (ws : List Worker) (h : ∀ w ∈ ws, w = Worker.done) : collect f ws = [] := by
  induction ws with
  | nil => rfl
  | cons a ws ih =>
    have ha : a = Worker.done := h a (by simp)
    subst ha
    simp [collect, hf, ih (fun w hw => h w (List.mem_cons_of_mem _ hw))]

/-- The five ways a worker takes a step. -/
theorem stepWorker_cases (chk : Int → Bool) (cb : Bool) (k : Nat) (s s' : ScanState)
    (h : stepWorker chk cb k s = some s') :
    (s.workers[k]? = some Worker.idle ∧ s.ports = [] ∧
      s' = { s with workers := s.workers.set k Worker.done }) ∨
    (∃ p rest, s.workers[k]? = some Worker.idle ∧ s.ports = p :: rest ∧
      s' = { s with ports := rest, workers := s.workers.set k (Worker.claimed p) }) ∨
    (∃ p, s.workers[k]? = some (Worker.claimed p) ∧
      s' = { s with workers := s.workers.set k (Worker.probed p (chk p)),
                    probes := s.probes ++ [p] }) ∨
    (∃ p b, s.workers[k]? = some (Worker.probed p b) ∧
      s' = { s with workers := s.workers.set k (Worker.notifying p b),
                    open_ports := if b then s.open_ports ++ [p] else s.open_ports }) ∨
    (∃ p b, s.workers[k]? = some (Worker.notifying p b) ∧
      s' = { s with workers := s.workers.set k Worker.idle,
                    calls := if cb then s.calls ++ [(p, b)] else s.calls }) := by
  unfold stepWorker at h
  cases hw : s.workers[k]? with
  | none => simp [hw] at h
  | some w =>
    cases w with
    | idle =>
      cases hp : s.ports with
      | nil =>
        simp only [hw, hp, Option.some.injEq] at h
        exact Or.inl ⟨rfl, rfl, h.symm⟩
      | cons p rest =>
        simp only [hw, hp, Option.some.injEq] at h
        exact Or.inr (Or.inl ⟨p, rest, rfl, rfl, h.symm⟩)
    | claimed p =>
      simp only [hw, Option.some.injEq] at h
      exact Or.inr (Or.inr (Or.inl ⟨p, rfl, h.symm⟩))
    | probed p b =>
      simp only [hw, Option.some.injEq] at h
      exact Or.inr (Or.inr (Or.inr (Or.inl ⟨p, b, rfl, h.symm⟩)))
    | notifying p b =>
      simp only [hw, Option.some.injEq] at h
      exact Or.inr (Or.inr (Or.inr (Or.inr ⟨p, b, rfl, h.symm⟩)))
    | done => simp [hw] at h

/-- The four ways the calling thread takes a step. -/
theorem stepMain_cases (e : PortScanner) (s s' : ScanState) (h : stepMain e s = some s') :
    (s.main = .spawning ∧ (s.workers.length : Int) < e.concurrency ∧
      s' = { s with workers := s.workers ++ [Worker.idle] }) ∨
    (s.main = .spawning ∧ ¬ (s.workers.length : Int) < e.concurrency ∧
      s' = { s with main := .joining 0 }) ∨
    (∃ j, s.main = .joining j ∧ j < s.workers.length ∧ s.workers[j]? = some Worker.done ∧
      s' = { s with main := .joining (j + 1) }) ∨
    (∃ j, s.main = .joining j ∧ ¬ j < s.workers.length ∧
      s' = { s with main := .returned, open_ports := s.open_ports.insertionSort (· ≤ ·) }) := by
  unfold stepMain at h
  cases hm : s.main with
  | spawning =>
    by_cases hc : (s.workers.length : Int) < e.concurrency
    · simp only [hm, hc, if_true, Option.some.injEq] at h
      exact Or.inl ⟨rfl, hc, h.symm⟩
    · simp only [hm, hc, if_false, Option.some.injEq] at h
      exact Or.inr (Or.inl ⟨rfl, hc, h.symm⟩)
  | joining j =>
    by_cases hj : j < s.workers.length
    · by_cases hd : s.workers[j]? = some Worker.done
      · simp only [hm, hj, hd, if_true, Option.some.injEq] at h
        exact Or.inr (Or.inr (Or.inl ⟨j, rfl, hj, hd, h.symm⟩))
      · simp only [hm, hj, if_true] at h
        rw [if_neg hd] at h
        cases h
    · simp only [hm, hj, if_false, Option.some.injEq] at h
      exact Or.inr (Or.inr (Or.inr ⟨j, rfl, hj, h.symm⟩))
  | returned => simp [hm] at h

/-! ## The scan: the invariant -/

theorem inv_init (c : ScanCall) : Inv c (ScanState.init c.engine) := by
  refine ⟨?_, ?_, ?_, ?_, ?_, ?_, ?_⟩
  · intro x; simp [ScanState.init, collect]
  · intro x; simp [ScanState.init, collect]
  · intro r; cases c.hasCallback <;> simp [ScanState.init, collect, occurrences_nil]
  · intro h; simp [ScanState.init] at h
  · simp [ScanState.init]
  · intro j h; simp [ScanState.init] at h
  · intro h; simp [ScanState.init] at h

theorem inv_stepMain (c : ScanCall) (s s' : ScanState) (hI : Inv c s)
    (h : stepMain c.engine s = some s') : Inv c s' := by
  rcases stepMain_cases c.engine s s' h with
    ⟨hm, hc, rfl⟩ | ⟨hm, hc, rfl⟩ | ⟨j, hm, hj, hd, rfl⟩ | ⟨j, hm, hj, rfl⟩
  · refine ⟨?_, ?_, ?_, ?_, ?_, ?_, ?_⟩
    · intro x
      have := hI.claim x
      simpa [collect_append, collect, Worker.toProbe] using this
    · intro x
      have := hI.record x
      simpa [collect_append, collect, Worker.toRecord] using this
    · intro r
      have := hI.notify r
      simpa [collect_append, collect, Worker.toNotify] using this
    · intro hmem
      simp only [List.mem_append, List.mem_singleton] at hmem
      rcases hmem with hmem | hmem
      · exact hI.drained hmem
      · cases hmem
    · have := hI.launched.1
      refine ⟨?_, fun hne => absurd hm hne⟩
      simp only [List.length_append, List.length_singleton]
      omega
    · intro j hj; simp [hm] at hj
    · intro hr; simp [hm] at hr
  · refine ⟨hI.claim, hI.record, hI.notify, hI.drained, ?_, ?_, ?_⟩
    · have := hI.launched.1
      refine ⟨this, fun _ => ?_⟩
      show s.workers.length = c.engine.concurrency.toNat
      omega
    · intro j hj i hi
      simp only [MainPc.joining.injEq] at hj
      omega
    · intro hr; cases hr
  · refine ⟨hI.claim, hI.record, hI.notify, hI.drained, ?_, ?_, ?_⟩
    · exact ⟨hI.launched.1, fun _ => hI.launched.2 (by simp [hm])⟩
    · intro j' hj' i hi
      simp only [MainPc.joining.injEq] at hj'
      by_cases hij : i = j
      · subst hij; exact hd
      · exact hI.joined j hm i (by omega)
    · intro hr; cases hr
  · refine ⟨hI.claim, ?_, hI.notify, hI.drained, ?_, ?_, ?_⟩
    · intro x
      have := hI.record x
      rw [← this]
      show (s.open_ports.insertionSort (· ≤ ·)).count x + _ = _
      rw [(List.perm_insertionSort (· ≤ ·) s.open_ports).count_eq x]
    · exact ⟨hI.launched.1, fun _ => hI.launched.2 (by simp [hm])⟩
    · intro j' hj'; cases hj'
    · intro _
      refine ⟨?_, List.sorted_insertionSort (· ≤ ·) s.open_ports⟩
      intro w hw
      change w ∈ s.workers at hw
      obtain ⟨i, hi⟩ := List.mem_iff_getElem?.1 hw
      have hlt : i < s.workers.length := by
        by_contra hge
        rw [List.getElem?_eq_none (by omega)] at hi
        cases hi
      have := hI.joined j hm i (by omega)
      rw [this] at hi
      exact (Option.some.inj hi).symm

theorem getElem?_set_done (ws : List Worker) (k : Nat) (w w' : Worker)
    (hk : ws[k]? = some w) (hw : w ≠ Worker.done) (i : Nat)
    (hi : ws[i]? = some Worker.done) : (ws.set k w')[i]? = some Worker.done := by
  have hne : k ≠ i := by
    rintro rfl
    rw [hk] at hi
    exact hw (Option.some.inj hi)
  rw [List.getElem?_set_ne hne]
  exact hi

/-- The parts of the invariant that do not count ports, for a worker step that
replaces the state `w` of worker `k` by `w'` and may shorten the queue. -/
theorem inv_frame (c : ScanCall) (s : ScanState) (hI : Inv c s) (k : Nat) (w w' : Worker)
    (hk : s.workers[k]? = some w) (hw : w ≠ Worker.done) (s' : ScanState)
    (hmain : s'.main = s.main) (hws : s'.workers = s.workers.set k w')
    (hports : w' ≠ Worker.done → s.ports = [] → s'.ports = [])
    (hdone : w' = Worker.done → s'.ports = []) :
    (Worker.done ∈ s'.workers → s'.ports = []) ∧
    (s'.workers.length ≤ c.engine.concurrency.toNat ∧
      (s'.main ≠ .spawning → s'.workers.length = c.engine.concurrency.toNat)) ∧
    (∀ j, s'.main = .joining j → ∀ i, i < j → s'.workers[i]? = some Worker.done) ∧
    (s'.main = .returned → False) := by
  refine ⟨?_, ?_, ?_, ?_⟩
  · intro hmem
    rw [hws] at hmem
    rcases List.mem_or_eq_of_mem_set hmem with hmem | heq
    · by_cases hd : w' = Worker.done
      · exact hdone hd
      · exact hports hd (hI.drained hmem)
    · exact hdone heq.symm
  · rw [hws, hmain, List.length_set]
    exact hI.launched
  · intro j hj i hi
    rw [hmain] at hj
    rw [hws]
    exact getElem?_set_done s.workers k w w' hk hw i (hI.joined j hj i hi)
  · intro hr
    rw [hmain] at hr
    have := (hI.finished hr).1 w (List.getElem?_mem hk)
    exact hw this

theorem inv_stepWorker (c : ScanCall) (k : Nat) (s s' : ScanState) (hI : Inv c s)
    (h : stepWorker c.check_port c.hasCallback k s = some s') : Inv c s' := by
  rcases stepWorker_cases _ _ k s s' h with
    ⟨hk, hp, rfl⟩ | ⟨p, rest, hk, hp, rfl⟩ | ⟨p, hk, rfl⟩ | ⟨p, b, hk, rfl⟩ | ⟨p, b, hk, rfl⟩
  · obtain ⟨f1, f2, f3, f4⟩ := inv_frame c s hI k Worker.idle Worker.done hk (by simp)
      { s with workers := s.workers.set k Worker.done } rfl rfl (fun _ hq => hq) (fun _ => hp)
    refine ⟨?_, ?_, ?_, f1, f2, f3, fun hr => (f4 hr).elim⟩
    · intro x
      have h1 := hI.claim x
      have h2 := count_collect_set Worker.toProbe x s.workers k _ Worker.done hk
      simp only [Worker.toProbe, List.count_nil] at h2
      dsimp only
      omega
    · intro x
      have h1 := hI.record x
      have h2 := count_collect_set Worker.toRecord x s.workers k _ Worker.done hk
      simp only [Worker.toRecord, List.count_nil] at h2
      dsimp only
      omega
    · intro r
      have h1 := hI.notify r
      have h2 := occurrences_collect_set Worker.toNotify r s.workers k _ Worker.done hk
      simp only [Worker.toNotify, occurrences_nil] at h2
      dsimp only
      cases hcb : c.hasCallback <;> simp only [hcb, if_true, if_false, Bool.false_eq_true] at h1 ⊢
        <;> omega
  · obtain ⟨f1, f2, f3, f4⟩ := inv_frame c s hI k Worker.idle (Worker.claimed p) hk (by simp)
      { s with ports := rest, workers := s.workers.set k (Worker.claimed p) } rfl rfl
      (fun _ hq => by rw [hp] at hq; cases hq) (fun hd => by cases hd)
    refine ⟨?_, ?_, ?_, f1, f2, f3, fun hr => (f4 hr).elim⟩
    · intro x
      have h1 := hI.claim x
      have h2 := count_collect_set Worker.toProbe x s.workers k _ (Worker.claimed p) hk
      simp only [Worker.toProbe, List.count_nil] at h2
      rw [hp, List.count_cons] at h1
      rw [List.count_singleton] at h2
      dsimp only
      omega
    · intro x
      have h1 := hI.record x
      have h2 := count_collect_set Worker.toRecord x s.workers k _ (Worker.claimed p) hk
      simp only [Worker.toRecord, List.count_nil] at h2
      dsimp only
      omega
    · intro r
      have h1 := hI.notify r
      have h2 := occurrences_collect_set Worker.toNotify r s.workers k _ (Worker.claimed p) hk
      simp only [Worker.toNotify, occurrences_nil] at h2
      dsimp only
      cases hcb : c.hasCallback <;> simp only [hcb, if_true, if_false, Bool.false_eq_true] at h1 ⊢
        <;> omega
  · obtain ⟨f1, f2, f3, f4⟩ := inv_frame c s hI k (Worker.claimed p)
      (Worker.probed p (c.check_port p)) hk (by simp)
      { s with workers := s.workers.set k (Worker.probed p (c.check_port p)),
               probes := s.probes ++ [p] } rfl rfl (fun _ hq => hq) (fun hd => by cases hd)
    refine ⟨?_, ?_, ?_, f1, f2, f3, fun hr => (f4 hr).elim⟩
    · intro x
      have h1 := hI.claim x
      have h2 := count_collect_set Worker.toProbe x s.workers k _
        (Worker.probed p (c.check_port p)) hk
      simp only [Worker.toProbe, List.count_nil] at h2
      dsimp only
      rw [List.count_append]
      omega
    · intro x
      have h1 := hI.record x
      have h2 := count_collect_set Worker.toRecord x s.workers k _
        (Worker.probed p (c.check_port p)) hk
      dsimp only
      rw [List.filter_append, List.count_append]
      cases hb : c.check_port p
      · simp only [hb, Worker.toRecord, List.count_nil] at h2
        simp only [List.filter_cons, hb, List.filter_nil, List.count_nil, Bool.false_eq_true,
          if_false]
        omega
      · simp only [hb, Worker.toRecord, List.count_nil] at h2
        simp only [List.filter_cons, hb, List.filter_nil, if_true]
        omega
    · intro r
      have h1 := hI.notify r
      have h2 := occurrences_collect_set Worker.toNotify r s.workers k _
        (Worker.probed p (c.check_port p)) hk
      simp only [Worker.toNotify, occurrences_nil] at h2
      dsimp only
      rw [List.map_append, occurrences_append, List.map_cons, List.map_nil]
      cases hcb : c.hasCallback <;> simp only [hcb, if_true, if_false, Bool.false_eq_true] at h1 ⊢
        <;> omega
  · obtain ⟨f1, f2, f3, f4⟩ := inv_frame c s hI k (Worker.probed p b)
      (Worker.notifying p b) hk (by simp)
      { s with workers := s.workers.set k (Worker.notifying p b),
               open_ports := if b then s.open_ports ++ [p] else s.open_ports } rfl rfl
      (fun _ hq => hq) (fun hd => by cases hd)
    refine ⟨?_, ?_, ?_, f1, f2, f3, fun hr => (f4 hr).elim⟩
    · intro x
      have h1 := hI.claim x
      have h2 := count_collect_set Worker.toProbe x s.workers k _ (Worker.notifying p b) hk
      simp only [Worker.toProbe, List.count_nil] at h2
      dsimp only
      omega
    · intro x
      have h1 := hI.record x
      have h2 := count_collect_set Worker.toRecord x s.workers k _ (Worker.notifying p b) hk
      dsimp only
      cases b
      · simp only [Worker.toRecord, List.count_nil] at h2
        simp only [Bool.false_eq_true, if_false]
        omega
      · simp only [Worker.toRecord, List.count_nil] at h2
        simp only [if_true, List.count_append]
        omega
    · intro r
      have h1 := hI.notify r
      have h2 := occurrences_collect_set Worker.toNotify r s.workers k _ (Worker.notifying p b) hk
      simp only [Worker.toNotify, occurrences_nil] at h2
      dsimp only
      cases hcb : c.hasCallback <;> simp only [hcb, if_true, if_false, Bool.false_eq_true] at h1 ⊢
        <;> omega
  · obtain ⟨f1, f2, f3, f4⟩ := inv_frame c s hI k (Worker.notifying p b) Worker.idle hk (by simp)
      { s with workers := s.workers.set k Worker.idle,
               calls := if c.hasCallback then s.calls ++ [(p, b)] else s.calls } rfl rfl
      (fun _ hq => hq) (fun hd => by cases hd)
    refine ⟨?_, ?_, ?_, f1, f2, f3, fun hr => (f4 hr).elim⟩
    · intro x
      have h1 := hI.claim x
      have h2 := count_collect_set Worker.toProbe x s.workers k _ Worker.idle hk
      simp only [Worker.toProbe, List.count_nil] at h2
      dsimp only
      omega
    · intro x
      have h1 := hI.record x
      have h2 := count_collect_set Worker.toRecord x s.workers k _ Worker.idle hk
      simp only [Worker.toRecord, List.count_nil] at h2
      dsimp only
      omega
    · intro r
      have h1 := hI.notify r
      have h2 := occurrences_collect_set Worker.toNotify r s.workers k _ Worker.idle hk
      simp only [Worker.toNotify, occurrences_nil] at h2
      dsimp only
      cases hcb : c.hasCallback
      · simp only [hcb, if_false, Bool.false_eq_true] at h1 ⊢
        omega
      · simp only [hcb, if_true, occurrences_append] at h1 ⊢
        omega

theorem inv_step (c : ScanCall) (s s' : ScanState) (hI : Inv c s) (h : Step c s s') :
    Inv c s' := by
  obtain ⟨t, ht⟩ := h
  cases t with
  | zero => exact inv_stepMain c s s' hI ht
  | succ k => exact inv_stepWorker c k s s' hI ht

theorem inv_reach (c : ScanCall) (s s' : ScanState) (hI : Inv c s) (h : Reach c s s') :
    Inv c s' := by
  induction h with
  | refl => exact hI
  | tail _ hstep ih => exact inv_step c _ _ ih hstep

/-! ## The scan: termination and progress -/

theorem stepsLeft_stepMain (e : PortScanner) (s s' : ScanState) (h : stepMain e s = some s') :
    stepsLeft e s' < stepsLeft e s := by
  rcases stepMain_cases e s s' h with
    ⟨hm, hc, rfl⟩ | ⟨hm, hc, rfl⟩ | ⟨j, hm, hj, hd, rfl⟩ | ⟨j, hm, hj, rfl⟩
  · simp only [stepsLeft, mainWeight, hm, List.length_append, List.length_singleton,
      List.map_append, List.sum_append, List.map_cons, List.map_nil, List.sum_cons,
      List.sum_nil, Worker.weight]
    omega
  · simp only [stepsLeft, mainWeight, hm]
    omega
  · simp only [stepsLeft, mainWeight, hm]
    omega
  · simp only [stepsLeft, mainWeight, hm]
    omega

theorem stepsLeft_stepWorker (e : PortScanner) (chk : Int → Bool) (cb : Bool) (k : Nat)
    (s s' : ScanState) (h : stepWorker chk cb k s = some s') :
    stepsLeft e s' < stepsLeft e s := by
  rcases stepWorker_cases _ _ k s s' h with
    ⟨hk, hp, rfl⟩ | ⟨p, rest, hk, hp, rfl⟩ | ⟨p, hk, rfl⟩ | ⟨p, b, hk, rfl⟩ | ⟨p, b, hk, rfl⟩
  · have h2 := sum_weight_set s.workers k _ Worker.done hk
    simp only [Worker.weight] at h2
    simp only [stepsLeft, mainWeight, List.length_set]
    omega
  · have h2 := sum_weight_set s.workers k _ (Worker.claimed p) hk
    simp only [Worker.weight] at h2
    simp only [stepsLeft, mainWeight, List.length_set, hp, List.length_cons]
    omega
  · have h2 := sum_weight_set s.workers k _ (Worker.probed p (chk p)) hk
    simp only [Worker.weight] at h2
    simp only [stepsLeft, mainWeight, List.length_set]
    omega
  · have h2 := sum_weight_set s.workers k _ (Worker.notifying p b) hk
    simp only [Worker.weight] at h2
    simp only [stepsLeft, mainWeight, List.length_set]
    omega
  · have h2 := sum_weight_set s.workers k _ Worker.idle hk
    simp only [Worker.weight] at h2
    simp only [stepsLeft, mainWeight, List.length_set]
    omega

theorem stepsLeft_step (c : ScanCall) (s s' : ScanState) (h : Step c s s') :
    stepsLeft c.engine s' < stepsLeft c.engine s := by
  obtain ⟨t, ht⟩ := h
  cases t with
  | zero => exact stepsLeft_stepMain c.engine s s' ht
  | succ k => exact stepsLeft_stepWorker c.engine _ _ k s s' ht

/-- A worker that has not ended has a step. -/
theorem stepWorker_enabled (chk : Int → Bool) (cb : Bool) (k : Nat) (s : ScanState) (w : Worker)
    (hk : s.workers[k]? = some w) (hw : w ≠ Worker.done) :
    ∃ s', stepWorker chk cb k s = some s' := by
  unfold stepWorker
  rw [hk]
  cases w with
  | idle => cases hp : s.ports <;> exact ⟨_, rfl⟩
  | claimed p => exact ⟨_, rfl⟩
  | probed p b => exact ⟨_, rfl⟩
  | notifying p b => exact ⟨_, rfl⟩
  | done => exact absurd rfl hw

/-- Until `scan` has returned some thread has a step: nothing blocks for ever. -/
theorem progress (c : ScanCall) (s : ScanState) (h : s.main ≠ .returned) :
    ∃ t, t < s.workers.length + 1 ∧ ∃ s', step c t s = some s' := by
  cases hm : s.main with
  | spawning =>
    refine ⟨0, by omega, ?_⟩
    simp only [step, stepMain, hm]
    split <;> exact ⟨_, rfl⟩
  | joining j =>
    by_cases hj : j < s.workers.length
    · have hsome : s.workers[j]? = some s.workers[j] := List.getElem?_eq_getElem hj
      by_cases hd : s.workers[j] = Worker.done
      · refine ⟨0, by omega, ?_⟩
        simp only [step, stepMain, hm, hj, if_true]
        rw [hsome, hd]
        exact ⟨_, rfl⟩
      · exact ⟨j + 1, by omega, stepWorker_enabled _ _ j s _ hsome hd⟩
    · refine ⟨0, by omega, ?_⟩
      simp only [step, stepMain, hm, hj, if_false]
      exact ⟨_, rfl⟩
  | returned => exact absurd hm h

theorem stepAny_some (c : ScanCall) (s s' : ScanState) (h : stepAny c s = some s') :
    Step c s s' := by
  obtain ⟨t, -, ht⟩ := List.exists_of_findSome?_eq_some h
  exact ⟨t, ht⟩

theorem stepAny_none (c : ScanCall) (s : ScanState) (h : stepAny c s = none) :
    s.main = .returned := by
  by_contra hne
  obtain ⟨t, hlt, s', hs'⟩ := progress c s hne
  have := (List.findSome?_eq_none_iff.1 h) t (List.mem_range.2 hlt)
  rw [this] at hs'
  cases hs'

theorem reach_runSchedule (c : ScanCall) (sched : List Nat) :
    ∀ s, Reach c s (runSchedule c sched s) := by
  induction sched with
  | nil => intro s; exact Relation.ReflTransGen.refl
  | cons t sched ih =>
    intro s
    show Reach c s (runSchedule c sched ((step c t s).getD s))
    cases ht : step c t s with
    | none => exact ih s
    | some s' => exact Relation.ReflTransGen.head ⟨t, ht⟩ (ih s')

theorem reach_runToEnd (c : ScanCall) (fuel : Nat) :
    ∀ s, Reach c s (runToEnd c fuel s) := by
  induction fuel with
  | zero => intro s; exact Relation.ReflTransGen.refl
  | succ fuel ih =>
    intro s
    unfold runToEnd
    cases ht : stepAny c s with
    | none => exact Relation.ReflTransGen.refl
    | some s' => exact Relation.ReflTransGen.head (stepAny_some c s s' ht) (ih s')

theorem runToEnd_returned (c : ScanCall) (fuel : Nat) :
    ∀ s, stepsLeft c.engine s ≤ fuel → (runToEnd c fuel s).main = .returned := by
  induction fuel with
  | zero =>
    intro s hs
    by_contra hne
    obtain ⟨t, -, s', hs'⟩ := progress c s hne
    have := stepsLeft_step c s s' ⟨t, hs'⟩
    omega
  | succ fuel ih =>
    intro s hs
    unfold runToEnd
    cases ht : stepAny c s with
    | none => exact stepAny_none c s ht
    | some s' =>
      have := stepsLeft_step c s s' (stepAny_some c s s' ht)
      exact ih s' (by omega)

/-- The call returns under every schedule, in a state the step relation reaches. -/
theorem scanRun_returned (c : ScanCall) (sched : List Nat) :
    (scanRun c sched).main = .returned ∧ Reach c (ScanState.init c.engine) (scanRun c sched) := by
  refine ⟨runToEnd_returned c _ _ (le_refl _), ?_⟩
  exact Relation.ReflTransGen.trans (reach_runSchedule c sched _) (reach_runToEnd c _ _)

/-- No interleaving is infinite: the converse of the step relation is well founded. -/
theorem step_wf (c : ScanCall) : WellFounded (fun s' s => Step c s s') :=
  Subrelation.wf (fun {a b} h => stepsLeft_step c b a h) (measure (stepsLeft c.engine)).wf

/-! ## The scan: the state at return -/

theorem mem_portQueue (sp ep p : Int) : p ∈ portQueue sp ep ↔ sp ≤ p ∧ p ≤ ep := by
  unfold portQueue
  simp only [List.mem_map, List.mem_range]
  constructor
  · rintro ⟨k, hk, rfl⟩
    omega
  · intro h
    exact ⟨(p - sp).toNat, by omega, by omega⟩

theorem length_portQueue (sp ep : Int) : (portQueue sp ep).length = (ep + 1 - sp).toNat := by
  simp [portQueue]

theorem sorted_portQueue (sp ep : Int) : (portQueue sp ep).Sorted (· < ·) := by
  unfold portQueue
  exact (List.pairwise_lt_range _).map _ (fun a b hab => by omega)

theorem count_portQueue (sp ep p : Int) (h1 : sp ≤ p) (h2 : p ≤ ep) :
    (portQueue sp ep).count p = 1 :=
  List.count_eq_one_of_mem (sorted_portQueue sp ep).nodup ((mem_portQueue sp ep p).2 ⟨h1, h2⟩)

theorem sorted_le_of_lt (l : List Int) (h : l.Sorted (· < ·)) : l.Sorted (· ≤ ·) :=
  List.Pairwise.imp (fun hab => le_of_lt hab) h

/-- What holds once `scan` has returned, for an engine with `concurrency ≥ 1`. -/
theorem final_state (c : ScanCall) (s : ScanState) (hI : Inv c s) (hr : s.main = .returned)
    (hc : 1 ≤ c.engine.concurrency) :
    s.ports = [] ∧ (∀ w ∈ s.workers, w = Worker.done) ∧
    s.workers.length = c.engine.concurrency.toNat ∧
    s.probes.Perm (portQueue c.engine.start_port c.engine.end_port) ∧
    s.open_ports.Perm (c.engine.open_ports ++
      (portQueue c.engine.start_port c.engine.end_port).filter c.check_port) ∧
    s.open_ports.Sorted (· ≤ ·) ∧
    (c.hasCallback = true → s.calls.Perm
      ((portQueue c.engine.start_port c.engine.end_port).map (fun p => (p, c.check_port p)))) ∧
    (c.hasCallback = false → s.calls = []) := by
  obtain ⟨hall, hsorted⟩ := hI.finished hr
  have hlen : s.workers.length = c.engine.concurrency.toNat := hI.launched.2 (by simp [hr])
  have hports : s.ports = [] := by
    apply hI.drained
    cases hws : s.workers with
    | nil => rw [hws] at hlen; simp at hlen; omega
    | cons w ws =>
      have : w = Worker.done := hall w (by simp [hws])
      simp [this]
  have hP : collect Worker.toProbe s.workers = [] := collect_all_done _ rfl _ hall
  have hR : collect Worker.toRecord s.workers = [] := collect_all_done _ rfl _ hall
  have hN : collect Worker.toNotify s.workers = [] := collect_all_done _ rfl _ hall
  have hprobes : s.probes.Perm (portQueue c.engine.start_port c.engine.end_port) := by
    rw [List.perm_iff_count]
    intro x
    have := hI.claim x
    rw [hP, hports] at this
    simpa using this
  refine ⟨hports, hall, hlen, hprobes, ?_, hsorted, ?_, ?_⟩
  · rw [List.perm_iff_count]
    intro x
    have := hI.record x
    rw [hR] at this
    rw [List.count_append, ← (hprobes.filter c.check_port).count_eq x]
    simpa using this
  · intro hcb
    apply perm_of_occurrences
    intro r
    have := hI.notify r
    rw [hN, hcb] at this
    rw [← occurrences_perm _ _ (hprobes.map (fun p => (p, c.check_port p))) r]
    simpa [occurrences_nil] using this
  · intro hcb
    apply List.eq_nil_iff_forall_not_mem.2
    intro r hr'
    have := hI.notify r
    rw [hcb] at this
    have hpos := occurrences_pos r s.calls hr'
    simp only [Bool.false_eq_true, if_false, Nat.add_zero] at this
    omega

/-- The result of a scan: the ascending sort of what the engine held at entry
together with the ports found open. -/
theorem final_open_ports (c : ScanCall) (s : ScanState) (hI : Inv c s) (hr : s.main = .returned)
    (hc : 1 ≤ c.engine.concurrency) :
    s.open_ports = (c.engine.open_ports ++
      (portQueue c.engine.start_port c.engine.end_port).filter c.check_port).insertionSort
        (· ≤ ·) := by
  obtain ⟨-, -, -, -, hperm, hsorted, -, -⟩ := final_state c s hI hr hc
  exact List.eq_of_perm_of_sorted (hperm.trans (List.perm_insertionSort _ _).symm) hsorted
    (List.sorted_insertionSort _ _)

/-- On an engine whose result vector is empty the result is the list of the
open ports of the range, in range order. -/
theorem final_open_ports_fresh (c : ScanCall) (s : ScanState) (hI : Inv c s)
    (hr : s.main = .returned) (hc : 1 ≤ c.engine.concurrency) (hfresh : c.engine.open_ports = []) :
    s.open_ports = (portQueue c.engine.start_port c.engine.end_port).filter c.check_port := by
  obtain ⟨-, -, -, -, hperm, hsorted, -, -⟩ := final_state c s hI hr hc
  rw [hfresh, List.nil_append] at hperm
  exact List.eq_of_perm_of_sorted hperm hsorted
    (sorted_le_of_lt _ ((sorted_portQueue _ _).filter _))

/-! ## The scan: the claims -/

/-- Claim C4. For every valid spec, every probe outcome function and every
interleaving of the workers: no interleaving is infinite and, until `scan` has
returned, some thread has a step, so the scan terminates (and the scheduled run
`scanRun` ends returned); and when it has returned with a callback supplied,
the callback was invoked `endPort - startPort + 1` times, once for each port of
`[startPort, endPort]` and for no other port. -/
theorem C4_exactly_once_callbacks (c : ScanCall)
    (hv : validFields c.engine.start_port c.engine.end_port c.engine.timeout_ms
      c.engine.concurrency) :
    WellFounded (fun s' s => Step c s s') ∧
    (∀ s, Reach c (ScanState.init c.engine) s → s.main ≠ .returned → ∃ s', Step c s s') ∧
    (∀ sched, (scanRun c sched).main = .returned ∧
      Reach c (ScanState.init c.engine) (scanRun c sched)) ∧
    (∀ s, Reach c (ScanState.init c.engine) s → s.main = .returned → c.hasCallback = true →
      (s.calls.length : Int) = c.engine.end_port - c.engine.start_port + 1 ∧
      (s.calls.map Prod.fst).Nodup ∧
      (∀ p, c.engine.start_port ≤ p → p ≤ c.engine.end_port →
        (s.calls.map Prod.fst).count p = 1) ∧
      (∀ p, p ∈ s.calls.map Prod.fst → c.engine.start_port ≤ p ∧ p ≤ c.engine.end_port) ∧
      (s.calls.map Prod.fst).Perm (portQueue c.engine.start_port c.engine.end_port)) := by
  have hv' := hv
  unfold validFields at hv'
  refine ⟨step_wf c, ?_, scanRun_returned c, ?_⟩
  · intro s _ hne
    obtain ⟨t, -, s', hs'⟩ := progress c s hne
    exact ⟨s', t, hs'⟩
  · intro s hreach hr hcb
    have hI := inv_reach c _ s (inv_init c) hreach
    obtain ⟨-, -, -, -, -, -, hcalls, -⟩ := final_state c s hI hr (by omega)
    have hperm : (s.calls.map Prod.fst).Perm
        (portQueue c.engine.start_port c.engine.end_port) := by
      have := (hcalls hcb).map Prod.fst
      simpa [Function.comp_def] using this
    refine ⟨?_, ?_, ?_, ?_, hperm⟩
    · have hl := hperm.length_eq
      rw [List.length_map, length_portQueue] at hl
      rw [hl]
      omega
    · exact hperm.nodup_iff.2 (sorted_portQueue _ _).nodup
    · intro p h1 h2
      rw [hperm.count_eq]
      exact count_portQueue _ _ p h1 h2
    · intro p hp
      exact (mem_portQueue _ _ p).1 (hperm.mem_iff.1 hp)

/-- Witness of C4 at the scenario of section 8 (ports 8000..8002, concurrency 4). -/
theorem C4_witness :
    validFields 8000 8002 200 4 ∧
    ∀ sched, (scanRun scenarioCall sched).main = .returned ∧
      Reach scenarioCall (ScanState.init scenarioCall.engine) (scanRun scenarioCall sched) :=
  ⟨by decide, (C4_exactly_once_callbacks scenarioCall (by decide)).2.2.1⟩

/-- Claim C5. For an engine the constructor has just returned, every probe
outcome function and every interleaving: when the first `scan` has returned,
`open_ports` is the list of the ports of the range whose probe returned open,
in ascending order, each once, and the callback log (if a callback was passed)
is a permutation of the probe results of the ports of the range; the same holds
of `get_open_ports` after `scan` under every schedule. In the scenario of
section 8 the result is `[8001]` and the callbacks report 8001 open and 8000,
8002 closed. -/
theorem C5_first_scan_result (r : Resolver) (h : String) (sp ep t cc : Int) (v : Bool)
    (e : PortScanner) (he : (PortScanner.construct r h sp ep t cc v).2 = .ok e)
    (chk : Int → Bool) (cb : Bool) :
    (∀ s, Reach ⟨e, chk, cb⟩ (ScanState.init e) s → s.main = .returned →
      s.open_ports = (portQueue sp ep).filter chk ∧
      s.open_ports.Sorted (· < ·) ∧
      (∀ p, p ∈ s.open_ports ↔ (sp ≤ p ∧ p ≤ ep) ∧ chk p = true) ∧
      (cb = true → s.calls.Perm ((portQueue sp ep).map (fun p => (p, chk p))))) ∧
    (∀ sched, (scan ⟨e, chk, cb⟩ sched).get_open_ports = (portQueue sp ep).filter chk) ∧
    (∀ sched, (scan scenarioCall sched).get_open_ports = [8001] ∧
      (scanRun scenarioCall sched).calls.Perm [(8000, false), (8001, true), (8002, false)]) := by
  obtain ⟨rfl, hv, -⟩ := construct_ok_inv r h sp ep t cc v e he
  have hv' := hv
  unfold validFields at hv'
  have key : ∀ s, Reach ⟨freshEngine h sp ep t cc v, chk, cb⟩
      (ScanState.init (freshEngine h sp ep t cc v)) s → s.main = .returned →
      s.open_ports = (portQueue sp ep).filter chk ∧
      (cb = true → s.calls.Perm ((portQueue sp ep).map (fun p => (p, chk p)))) := by
    intro s hreach hr
    have hI := inv_reach _ _ s (inv_init _) hreach
    refine ⟨final_open_ports_fresh _ s hI hr (by show 1 ≤ cc; omega) rfl, ?_⟩
    exact (final_state _ s hI hr (by show 1 ≤ cc; omega)).2.2.2.2.2.2.1
  refine ⟨?_, ?_, ?_⟩
  · intro s hreach hr
    obtain ⟨h1, h2⟩ := key s hreach hr
    refine ⟨h1, ?_, ?_, h2⟩
    · rw [h1]; exact (sorted_portQueue sp ep).filter _
    · intro p
      rw [h1, List.mem_filter, mem_portQueue]
  · intro sched
    have hs := scanRun_returned ⟨freshEngine h sp ep t cc v, chk, cb⟩ sched
    exact (key _ hs.2 hs.1).1
  · intro sched
    have hs := scanRun_returned scenarioCall sched
    have hI := inv_reach _ _ _ (inv_init _) hs.2
    have hfin := final_state scenarioCall _ hI hs.1 (by decide)
    refine ⟨?_, ?_⟩
    · have := final_open_ports_fresh scenarioCall _ hI hs.1 (by decide) rfl
      show (scanRun scenarioCall sched).open_ports = [8001]
      rw [this]
      decide
    · have := hfin.2.2.2.2.2.2.1 rfl
      have hq : (portQueue scenarioCall.engine.start_port scenarioCall.engine.end_port).map
          (fun p => (p, scenarioCall.check_port p)) =
          [(8000, false), (8001, true), (8002, false)] := by decide
      rw [hq] at this
      exact this

/-- Witness of C5: the constructor accepts the scenario of section 8, and the
theorem applies to the engine it returns. -/
theorem C5_witness :
    (PortScanner.construct (literalResolver ["127.0.0.1"]) "127.0.0.1" 8000 8002 200 4 false).2 =
      .ok (freshEngine "127.0.0.1" 8000 8002 200 4 false) ∧
    ∀ sched, (scan ⟨freshEngine "127.0.0.1" 8000 8002 200 4 false,
      fun p => decide (p = 8001), true⟩ sched).get_open_ports =
        (portQueue 8000 8002).filter (fun p => decide (p = 8001)) :=
  ⟨construct_valid _ _ _ _ _ _ _ (by decide) (by decide),
   (C5_first_scan_result (literalResolver ["127.0.0.1"]) "127.0.0.1" 8000 8002 200 4 false _
     (construct_valid _ _ _ _ _ _ _ (by decide) (by decide)) (fun p => decide (p = 8001))
     true).2.1⟩

/-- Claim C6, refuted as stated: a second `scan` on the same engine with the same
probe outcomes does not yield the same result. With one port, 8000, open: the
first call leaves `[8000]`, the second call probes 8000 once and finds it open,
and leaves `[8000, 8000]`, here along the default schedule and along every other
schedule as well. -/
theorem C6_rescan_accumulates :
    (scan singlePortCall []).get_open_ports = [8000] ∧
    (scanRun { singlePortCall with engine := scan singlePortCall [] } []).calls =
      [(8000, true)] ∧
    (rescan singlePortCall [] []).get_open_ports = [8000, 8000] ∧
    (rescan singlePortCall [] []).get_open_ports ≠ (scan singlePortCall []).get_open_ports ∧
    (∀ sched sched', (rescan singlePortCall sched sched').get_open_ports = [8000, 8000]) := by
  refine ⟨by decide, by decide, by decide, by decide, ?_⟩
  intro sched sched'
  have hs := scanRun_returned singlePortCall sched
  have h1 := final_open_ports_fresh singlePortCall _ (inv_reach _ _ _ (inv_init _) hs.2) hs.1
    (by decide) rfl
  have hs' := scanRun_returned { singlePortCall with engine := scan singlePortCall sched } sched'
  have h2 := final_open_ports _ _ (inv_reach _ _ _ (inv_init _) hs'.2) hs'.1
    (by show (1 : Int) ≤ 1; decide)
  show (scanRun { singlePortCall with engine := scan singlePortCall sched } sched').open_ports = _
  rw [h2]
  show ((scanRun singlePortCall sched).open_ports ++
    (portQueue 8000 8000).filter (fun _ => true)).insertionSort (· ≤ ·) = _
  rw [h1]
  show ((portQueue 8000 8000).filter (fun _ => true) ++
    (portQueue 8000 8000).filter (fun _ => true)).insertionSort (· ≤ ·) = _
  decide

/-- Claim C6, amended. Rescanning accumulates: for every engine state, when
`scan` has returned `open_ports` is the ascending sort of the ports the engine
held before the call together with the ports found open during this call; on an
engine whose result is empty it is exactly the ports found open during this
call; and a second call with the same probe outcomes yields the sort of the
first result together with the open ports once more. -/
theorem C6_rescan_result (c : ScanCall)
    (hv : validFields c.engine.start_port c.engine.end_port c.engine.timeout_ms
      c.engine.concurrency) :
    (∀ s, Reach c (ScanState.init c.engine) s → s.main = .returned →
      s.open_ports = (c.engine.open_ports ++
        (portQueue c.engine.start_port c.engine.end_port).filter c.check_port).insertionSort
          (· ≤ ·)) ∧
    (c.engine.open_ports = [] → ∀ s, Reach c (ScanState.init c.engine) s → s.main = .returned →
      s.open_ports = (portQueue c.engine.start_port c.engine.end_port).filter c.check_port) ∧
    (∀ sched, (scan c sched).get_open_ports = (c.engine.open_ports ++
        (portQueue c.engine.start_port c.engine.end_port).filter c.check_port).insertionSort
          (· ≤ ·)) ∧
    (∀ sched sched', (rescan c sched sched').get_open_ports =
      ((scan c sched).get_open_ports ++
        (portQueue c.engine.start_port c.engine.end_port).filter c.check_port).insertionSort
          (· ≤ ·)) := by
  have hv' := hv
  unfold validFields at hv'
  have hc : 1 ≤ c.engine.concurrency := by omega
  refine ⟨?_, ?_, ?_, ?_⟩
  · intro s hreach hr
    exact final_open_ports c s (inv_reach c _ s (inv_init c) hreach) hr hc
  · intro hfresh s hreach hr
    exact final_open_ports_fresh c s (inv_reach c _ s (inv_init c) hreach) hr hc hfresh
  · intro sched
    have hs := scanRun_returned c sched
    exact final_open_ports c _ (inv_reach c _ _ (inv_init c) hs.2) hs.1 hc
  · intro sched sched'
    have hs := scanRun_returned { c with engine := scan c sched } sched'
    exact final_open_ports _ _ (inv_reach _ _ _ (inv_init _) hs.2) hs.1 hc

/-- Witness of C6 (amended) at one open port and one worker. -/
theorem C6_witness :
    validFields 8000 8000 200 1 ∧
    ∀ sched sched', (rescan singlePortCall sched sched').get_open_ports =
      ((scan singlePortCall sched).get_open_ports ++
        (portQueue 8000 8000).filter (fun _ => true)).insertionSort (· ≤ ·) :=
  ⟨by decide, (C6_rescan_result singlePortCall (by decide)).2.2.2⟩

/-- Claim C7, refuted as stated: after a second `scan` on the same engine, with
ports 80 and 81 both open, `get_open_ports()` is `[80, 80, 81, 81]`, which has
duplicates and is not strictly ascending. -/
theorem C7_second_scan_has_duplicates :
    (rescan twoOpenCall [] []).get_open_ports = [80, 80, 81, 81] ∧
    ¬ (rescan twoOpenCall [] []).get_open_ports.Nodup ∧
    ¬ (rescan twoOpenCall [] []).get_open_ports.Sorted (· < ·) := by
  have h : (rescan twoOpenCall [] []).get_open_ports = [80, 80, 81, 81] := by decide
  refine ⟨h, ?_, ?_⟩
  · rw [h]; decide
  · rw [h]; decide

/-- Claim C7, amended. After every `scan` call on an engine, the first and every
later one, `get_open_ports()` is ascending (each port at most the next); after
a `scan` on an engine whose result was empty, as after the first, it is
strictly ascending with no duplicate port. -/
theorem C7_sorted_output (c : ScanCall)
    (hv : validFields c.engine.start_port c.engine.end_port c.engine.timeout_ms
      c.engine.concurrency) :
    (∀ s, Reach c (ScanState.init c.engine) s → s.main = .returned →
      s.open_ports.Sorted (· ≤ ·)) ∧
    (∀ sched, (scan c sched).get_open_ports.Sorted (· ≤ ·)) ∧
    (∀ sched sched', (rescan c sched sched').get_open_ports.Sorted (· ≤ ·)) ∧
    (c.engine.open_ports = [] →
      (∀ s, Reach c (ScanState.init c.engine) s → s.main = .returned →
        s.open_ports.Sorted (· < ·) ∧ s.open_ports.Nodup) ∧
      (∀ sched, (scan c sched).get_open_ports.Sorted (· < ·) ∧
        (scan c sched).get_open_ports.Nodup)) := by
  have hv' := hv
  unfold validFields at hv'
  have hc : 1 ≤ c.engine.concurrency := by omega
  have hstrict : c.engine.open_ports = [] →
      ∀ s, Reach c (ScanState.init c.engine) s → s.main = .returned →
        s.open_ports.Sorted (· < ·) ∧ s.open_ports.Nodup := by
    intro hfresh s hreach hr
    have hI := inv_reach c _ s (inv_init c) hreach
    have hsorted : s.open_ports.Sorted (· < ·) := by
      rw [final_open_ports_fresh c s hI hr hc hfresh]
      exact (sorted_portQueue _ _).filter _
    exact ⟨hsorted, hsorted.nodup⟩
  refine ⟨?_, ?_, ?_, ?_⟩
  · intro s hreach hr
    exact ((inv_reach c _ s (inv_init c) hreach).finished hr).2
  · intro sched
    have hs := scanRun_returned c sched
    exact ((inv_reach c _ _ (inv_init c) hs.2).finished hs.1).2
  · intro sched sched'
    have hs := scanRun_returned { c with engine := scan c sched } sched'
    exact ((inv_reach _ _ _ (inv_init _) hs.2).finished hs.1).2
  · intro hfresh
    refine ⟨hstrict hfresh, ?_⟩
    intro sched
    have hs := scanRun_returned c sched
    exact hstrict hfresh _ hs.2 hs.1

/-- Witness of C7 (amended) at two open ports and two workers. -/
theorem C7_witness :
    validFields 80 81 500 2 ∧
    ∀ sched sched', (rescan twoOpenCall sched sched').get_open_ports.Sorted (· ≤ ·) :=
  ⟨by decide, (C7_sorted_output twoOpenCall (by decide)).2.2.1⟩

theorem inFlight_le (s : ScanState) : inFlight s ≤ s.workers.length :=
  List.length_filter_le _ _

/-- Claim C10. In every reachable state of a scan at most `concurrency` probes
are in flight: there are never more than `concurrency` workers, and once the
creating loop is left there are exactly `concurrency` of them, whatever the
number of ports; each worker holds at most one port; and a worker that finds
the queue empty ends at once, without a probe, a push or a callback, and takes
no further step. -/
theorem C10_concurrency_bound (c : ScanCall)
    (hv : validFields c.engine.start_port c.engine.end_port c.engine.timeout_ms
      c.engine.concurrency) :
    (∀ s, Reach c (ScanState.init c.engine) s →
      (s.workers.length : Int) ≤ c.engine.concurrency ∧
      (inFlight s : Int) ≤ c.engine.concurrency ∧
      (s.main ≠ .spawning → (s.workers.length : Int) = c.engine.concurrency) ∧
      (∀ w ∈ s.workers, w.held.length ≤ 1) ∧
      (∀ k, s.workers[k]? = some Worker.idle → s.ports = [] →
        ∃ s', step c (k + 1) s = some s' ∧ s'.workers[k]? = some Worker.done ∧
          s'.probes = s.probes ∧ s'.calls = s.calls ∧ s'.open_ports = s.open_ports ∧
          step c (k + 1) s' = none)) ∧
    (∀ sched, ((scanRun c sched).workers.length : Int) = c.engine.concurrency) := by
  have hv' := hv
  unfold validFields at hv'
  have hlaunch : ∀ s, Reach c (ScanState.init c.engine) s →
      (s.workers.length : Int) ≤ c.engine.concurrency ∧
      (s.main ≠ .spawning → (s.workers.length : Int) = c.engine.concurrency) := by
    intro s hreach
    have hI := inv_reach c _ s (inv_init c) hreach
    refine ⟨?_, fun hne => ?_⟩
    · have := hI.launched.1
      omega
    · have := hI.launched.2 hne
      omega
  refine ⟨?_, ?_⟩
  · intro s hreach
    obtain ⟨h1, h2⟩ := hlaunch s hreach
    refine ⟨h1, ?_, h2, ?_, ?_⟩
    · have := inFlight_le s
      omega
    · intro w _
      cases w <;> simp [Worker.held]
    · intro k hk hp
      have hlt : k < s.workers.length := by
        by_contra hge
        rw [List.getElem?_eq_none (by omega)] at hk
        cases hk
      refine ⟨{ s with workers := s.workers.set k Worker.done }, ?_, ?_, rfl, rfl, rfl, ?_⟩
      · simp only [step, stepWorker, hk, hp]
      · show (s.workers.set k Worker.done)[k]? = some Worker.done
        rw [List.getElem?_set_self hlt]
      · have : (s.workers.set k Worker.done)[k]? = some Worker.done := by
          rw [List.getElem?_set_self hlt]
        simp only [step, stepWorker, this]
  · intro sched
    have hs := scanRun_returned c sched
    exact (hlaunch _ hs.2).2 (by rw [hs.1]; simp)

/-- Witness of C10 at the scenario of section 8, where the four workers
outnumber the three ports. -/
theorem C10_witness :
    validFields 8000 8002 200 4 ∧
    ∀ sched, ((scanRun scenarioCall sched).workers.length : Int) = 4 :=
  ⟨by decide, (C10_concurrency_bound scenarioCall (by decide)).2⟩

/-! ## The command line -/

/-- The caller's local vector after the scan: the open ports in the order of
the callback log. -/
theorem fold_main_callback (verbose : Bool) (calls : List (Int × Bool)) :
    ∀ acc : List Out × List Int,
      (calls.foldl (main_callback verbose) acc).2 =
        acc.2 ++ (calls.filter (fun r => r.2)).map Prod.fst := by
  induction calls with
  | nil => intro acc; simp
  | cons r calls ih =>
    intro acc
    rw [List.foldl_cons, ih]
    cases hr : r.2 <;> simp [main_callback, hr, List.filter_cons]

/-- What is right in claim C8: after a scan of a fresh valid engine with a
callback, the caller's local vector holds exactly the open ports of the range,
each once, and the report says "No open ports found." exactly when there is
none. The order is that of the callback log. -/
theorem printed_ports_complete (c : ScanCall)
    (hv : validFields c.engine.start_port c.engine.end_port c.engine.timeout_ms
      c.engine.concurrency) (hcb : c.hasCallback = true) (verbose : Bool) (pre : List Out)
    (sched : List Nat) :
    ((scanRun c sched).calls.foldl (main_callback verbose) (pre, [])).2.Perm
      ((portQueue c.engine.start_port c.engine.end_port).filter c.check_port) ∧
    (Out.noOpenPorts ∈ report ((scanRun c sched).calls.foldl (main_callback verbose) (pre, [])).2 ↔
      (portQueue c.engine.start_port c.engine.end_port).filter c.check_port = []) := by
  have hv' := hv
  unfold validFields at hv'
  have hs := scanRun_returned c sched
  have hI := inv_reach c _ _ (inv_init c) hs.2
  have hcalls := (final_state c _ hI hs.1 (by omega)).2.2.2.2.2.2.1 hcb
  have hperm : ((scanRun c sched).calls.foldl (main_callback verbose) (pre, [])).2.Perm
      ((portQueue c.engine.start_port c.engine.end_port).filter c.check_port) := by
    rw [fold_main_callback]
    have h1 := ((hcalls.filter (fun r => r.2)).map Prod.fst)
    have h2 : (((portQueue c.engine.start_port c.engine.end_port).map
        (fun p => (p, c.check_port p))).filter (fun r => r.2)).map Prod.fst =
        (portQueue c.engine.start_port c.engine.end_port).filter c.check_port := by
      generalize portQueue c.engine.start_port c.engine.end_port = l
      induction l with
      | nil => rfl
      | cons a l ih =>
        cases ha : c.check_port a <;> simp [List.filter_cons, ha, ih]
    rw [h2] at h1
    simpa using h1
  refine ⟨hperm, ?_⟩
  generalize ((scanRun c sched).calls.foldl (main_callback verbose) (pre, [])).2 = printed
    at hperm
  constructor
  · intro hmem
    cases printed with
    | nil => exact hperm.symm.eq_nil
    | cons a l => simp [report] at hmem
  · intro hnil
    rw [hnil] at hperm
    rw [hperm.eq_nil]
    simp [report]

/-- Claim C8, the failing run. Flag mode, `127.0.0.1`, ports 8000..8001, both
open, two workers: when worker 1 claims 8000, worker 2 claims 8001 and finishes
first, the program prints the open ports as 8001, 8000, not in ascending
order, although the engine's own `get_open_ports()` is `[8000, 8001]` on the
same schedule; interactive mode does the same on the same schedule. -/
theorem C8_printed_ports_unsorted :
    main openWorld ["bps", "--host=127.0.0.1", "--start=8000", "--end=8001", "--concurrency=2"]
        [] [0, 0, 0, 1, 2, 2, 2, 2, 1, 1, 1] =
      { out := [Out.banner, Out.scanning "127.0.0.1" 8000 8001, Out.scanComplete,
                Out.openPortsHeader, Out.openPort 8001, Out.openPort 8000],
        exit := .code 0, netcalls := [NetCall.inet_pton "127.0.0.1"], probes := [8001, 8000],
        constructed := true } ∧
    (scan ⟨freshEngine "127.0.0.1" 8000 8001 500 2 false, openWorld.connect "127.0.0.1", true⟩
      [0, 0, 0, 1, 2, 2, 2, 2, 1, 1, 1]).get_open_ports = [8000, 8001] ∧
    ((main openWorld ["bps"] ["127.0.0.1", "8000", "8001", "500", "2", "n"]
        [0, 0, 0, 1, 2, 2, 2, 2, 1, 1, 1]).out.filter
          (fun o => match o with | Out.openPort _ => true | _ => false)) =
      [Out.openPort 8001, Out.openPort 8000] := by
  refine ⟨by decide, by decide, by decide⟩

theorem matchOpt_help : matchOpt "--help" = some ("help", "") := by decide

theorem parse_arg_help (args : Args) : parse_arg args "--help" = .ok { args with help := true } := by
  unfold parse_arg
  rw [matchOpt_help]
  simp only []
  rw [if_neg (by decide), if_neg (by decide), if_neg (by decide), if_neg (by decide),
    if_neg (by decide), if_neg (by decide), if_pos (by decide)]

/-- What one argument can change: `help` is never reset, and a field changes
only through a flag with one of its keys. -/
theorem parse_arg_ok (args args' : Args) (a : String) (h : parse_arg args a = .ok args') :
    (args.help = true → args'.help = true) ∧
    (flagIn ["s", "start"] a = false → args'.start_port = args.start_port) ∧
    (flagIn ["e", "end"] a = false → args'.end_port = args.end_port) ∧
    (flagIn ["t", "timeout"] a = false → args'.timeout = args.timeout) ∧
    (flagIn ["c", "concurrency"] a = false → args'.concurrency = args.concurrency) ∧
    (flagIn ["v", "verbose"] a = false → args'.verbose = args.verbose) := by
  unfold parse_arg at h
  unfold flagIn
  cases hm : matchOpt a with
  | none =>
    rw [hm] at h
    cases h
    simp
  | some kv =>
    obtain ⟨k, v⟩ := kv
    rw [hm] at h
    simp only [] at h
    split_ifs at h with h1 h2 h3 h4 h5 h6 h7
    · cases h; simp
    · cases hs : stoi v with
      | error err => rw [hs] at h; cases h
      | ok n =>
        rw [hs] at h
        cases h
        rcases h2 with rfl | rfl <;> simp
    · cases hs : stoi v with
      | error err => rw [hs] at h; cases h
      | ok n =>
        rw [hs] at h
        cases h
        rcases h3 with rfl | rfl <;> simp
    · cases hs : stoi v with
      | error err => rw [hs] at h; cases h
      | ok n =>
        rw [hs] at h
        cases h
        rcases h4 with rfl | rfl <;> simp
    · cases hs : stoi v with
      | error err => rw [hs] at h; cases h
      | ok n =>
        rw [hs] at h
        cases h
        rcases h5 with rfl | rfl <;> simp
    · cases h
      rcases h6 with rfl | rfl <;> simp
    · cases h; simp
    · cases h; simp

theorem stoi_of_stoiOk (v : String) (h : stoiOk v = true) : ∃ n, stoi v = .ok n := by
  unfold stoiOk at h
  cases hs : stoi v with
  | error err => rw [hs] at h; cases h
  | ok n => exact ⟨n, rfl⟩

/-- An argument whose numeric value converts does not throw. -/
theorem parse_arg_total (args : Args) (a : String) (h : numericFlagOk a = true) :
    ∃ args', parse_arg args a = .ok args' := by
  unfold numericFlagOk at h
  unfold parse_arg
  cases hm : matchOpt a with
  | none => exact ⟨args, rfl⟩
  | some kv =>
    obtain ⟨k, v⟩ := kv
    rw [hm] at h
    simp only [] at h ⊢
    have hnum : numericKeys.contains k = true → ∃ n, stoi v = .ok n := by
      intro hk
      rw [hk] at h
      exact stoi_of_stoiOk v (by simpa using h)
    split_ifs with h1 h2 h3 h4 h5 h6 h7
    · exact ⟨_, rfl⟩
    · obtain ⟨n, hn⟩ := hnum (by rcases h2 with rfl | rfl <;> decide)
      rw [hn]; exact ⟨_, rfl⟩
    · obtain ⟨n, hn⟩ := hnum (by rcases h3 with rfl | rfl <;> decide)
      rw [hn]; exact ⟨_, rfl⟩
    · obtain ⟨n, hn⟩ := hnum (by rcases h4 with rfl | rfl <;> decide)
      rw [hn]; exact ⟨_, rfl⟩
    · obtain ⟨n, hn⟩ := hnum (by rcases h5 with rfl | rfl <;> decide)
      rw [hn]; exact ⟨_, rfl⟩
    · exact ⟨_, rfl⟩
    · exact ⟨_, rfl⟩
    · exact ⟨_, rfl⟩

/-- The loop of `parse_args` returns when the numeric values all convert. -/
theorem parse_loop_total (l : List String) : ∀ args : Args, l.all numericFlagOk = true →
    ∃ args', parse_loop args l = .ok args' := by
  induction l with
  | nil => intro args _; exact ⟨args, rfl⟩
  | cons a l ih =>
    intro args hall
    rw [List.all_cons, Bool.and_eq_true] at hall
    obtain ⟨args1, h1⟩ := parse_arg_total args a hall.1
    obtain ⟨args', h'⟩ := ih args1 hall.2
    refine ⟨args', ?_⟩
    show (match parse_arg args a with
      | .ok args' => parse_loop args' l
      | .error err => .error err) = _
    rw [h1]
    exact h'

/-- Claim C9, refuted as stated: the argument vector `bps --start=abc --help`
contains `--help`, yet the program prints nothing and ends in `std::terminate`:
`std::stoi("abc")` throws inside `parse_args`, outside every `try`. -/
theorem C9_help_with_bad_number_terminates :
    "--help" ∈ ["bps", "--start=abc", "--help"] ∧
    main openWorld ["bps", "--start=abc", "--help"] [] [] =
      { out := [], exit := .terminate, netcalls := [], probes := [], constructed := false } ∧
    (main openWorld ["bps", "--start=abc", "--help"] [] []).exit ≠ .code 0 ∧
    Out.usage ∉ (main openWorld ["bps", "--start=abc", "--help"] [] []).out := by
  refine ⟨by decide, by decide, by decide, by decide⟩

/-- The loop of `parse_args`, whenever it returns: `help` is set if `--help`
is among the arguments, and a field keeps its value when no argument is a flag
with one of its keys. -/
theorem parse_loop_fields (l : List String) : ∀ args args' : Args,
    parse_loop args l = .ok args' →
      ((args.help = true ∨ "--help" ∈ l) → args'.help = true) ∧
      (l.any (flagIn ["s", "start"]) = false → args'.start_port = args.start_port) ∧
      (l.any (flagIn ["e", "end"]) = false → args'.end_port = args.end_port) ∧
      (l.any (flagIn ["t", "timeout"]) = false → args'.timeout = args.timeout) ∧
      (l.any (flagIn ["c", "concurrency"]) = false → args'.concurrency = args.concurrency) ∧
      (l.any (flagIn ["v", "verbose"]) = false → args'.verbose = args.verbose) := by
  induction l with
  | nil =>
    intro args args' h
    cases h
    refine ⟨?_, fun _ => rfl, fun _ => rfl, fun _ => rfl, fun _ => rfl, fun _ => rfl⟩
    rintro (h | h)
    · exact h
    · cases h
  | cons a l ih =>
    intro args args' h
    change (match parse_arg args a with
      | .ok args1 => parse_loop args1 l
      | .error err => .error err) = .ok args' at h
    cases h1 : parse_arg args a with
    | error err => rw [h1] at h; cases h
    | ok args1 =>
      rw [h1] at h
      obtain ⟨g0, g1, g2, g3, g4, g5⟩ := parse_arg_ok args args1 a h1
      obtain ⟨k0, k1, k2, k3, k4, k5⟩ := ih args1 args' h
      refine ⟨?_, ?_, ?_, ?_, ?_, ?_⟩
      · rintro (hh | hh)
        · exact k0 (Or.inl (g0 hh))
        · rcases List.mem_cons.1 hh with rfl | hh
          · rw [parse_arg_help] at h1
            cases h1
            exact k0 (Or.inl rfl)
          · exact k0 (Or.inr hh)
      · intro hh
        rw [List.any_cons, Bool.or_eq_false_iff] at hh
        rw [k1 hh.2, g1 hh.1]
      · intro hh
        rw [List.any_cons, Bool.or_eq_false_iff] at hh
        rw [k2 hh.2, g2 hh.1]
      · intro hh
        rw [List.any_cons, Bool.or_eq_false_iff] at hh
        rw [k3 hh.2, g3 hh.1]
      · intro hh
        rw [List.any_cons, Bool.or_eq_false_iff] at hh
        rw [k4 hh.2, g4 hh.1]
      · intro hh
        rw [List.any_cons, Bool.or_eq_false_iff] at hh
        rw [k5 hh.2, g5 hh.1]

/-- Claim C9, amended. For every argument vector in which each numeric flag
(`s`, `start`, `e`, `end`, `t`, `timeout`, `c`, `concurrency`) carries a value
`std::stoi` converts, `parse_args` returns, and if `--help` is among the
arguments the program prints the usage summary and exits with code 0 without
constructing a scanner, resolving the host or probing a port; and whenever
`parse_args` returns, every field whose flag is absent keeps its default
(`startPort=1`, `endPort=1024`, `timeoutMs=500`, `concurrency=20`,
`verbose=false`). -/
theorem C9_help_and_defaults (w : World) (argv stdin : List String) (sched : List Nat) :
    ((argv.drop 1).all numericFlagOk = true →
      (∃ args, parse_args argv = .ok args) ∧
      ("--help" ∈ argv.drop 1 → main w argv stdin sched = usageRun ∧
        (main w argv stdin sched).out = [Out.usage] ∧
        (main w argv stdin sched).exit = .code 0 ∧
        (main w argv stdin sched).constructed = false ∧
        (main w argv stdin sched).probes = [])) ∧
    (∀ args, parse_args argv = .ok args →
      (hasFlag ["s", "start"] argv = false → args.start_port = 1) ∧
      (hasFlag ["e", "end"] argv = false → args.end_port = 1024) ∧
      (hasFlag ["t", "timeout"] argv = false → args.timeout = 500) ∧
      (hasFlag ["c", "concurrency"] argv = false → args.concurrency = 20) ∧
      (hasFlag ["v", "verbose"] argv = false → args.verbose = false)) := by
  refine ⟨?_, ?_⟩
  · intro hnum
    obtain ⟨args, hp⟩ := parse_loop_total (argv.drop 1) {} hnum
    refine ⟨⟨args, hp⟩, ?_⟩
    intro hhelp
    have hh := (parse_loop_fields (argv.drop 1) {} args hp).1 (Or.inr hhelp)
    have hp' : parse_args argv = .ok args := hp
    have hmain : main w argv stdin sched = usageRun := by
      unfold main
      rw [hp']
      simp only [hh, if_true]
      rfl
    rw [hmain]
    exact ⟨rfl, rfl, rfl, rfl, rfl⟩
  · intro args hp
    exact (parse_loop_fields (argv.drop 1) {} args hp).2

/-- Witness of C9 (amended): `bps --host=10.0.0.1 -c=7 --help` prints the usage
summary and exits with code 0. -/
theorem C9_witness :
    (["bps", "--host=10.0.0.1", "-c=7", "--help"].drop 1).all numericFlagOk = true ∧
    main openWorld ["bps", "--host=10.0.0.1", "-c=7", "--help"] [] [] = usageRun :=
  ⟨by decide,
   (((C9_help_and_defaults openWorld ["bps", "--host=10.0.0.1", "-c=7", "--help"] [] []).1
     (by decide)).2 (by decide)).1⟩

end BPS
